import Mathlib

/-
  Verification of the review-and-remediation core of the adw_server
  repository (apps/adw_server/core/review_actions.py and handlers.py).

  The Python functions are shallowly embedded as pure Lean functions:
  the module-level mutable dictionaries become explicit association-list
  states threaded through the operations, wall-clock time becomes an
  explicit integer parameter, and the regular-expression searches of the
  review parser are embedded as deterministic matchers that reproduce
  the leftmost-search and greedy/lazy semantics of the concrete patterns
  used by the source (each pattern is simple enough that backtracking is
  determinate; this is argued in the comments of each matcher).
-/

namespace ADW

/-! ## Character and list utilities shared by the embedded regexes -/

/-- ASCII whitespace characters matched by the regex whitespace class. -/
def isSpaceChar (c : Char) : Bool :=
  c == ' ' || c == '\t' || c == '\n' || c == '\r' || c == '\x0b' || c == '\x0c'

/-- Split into the maximal whitespace run and the remainder
    (the greedy whitespace-star step of the embedded regexes). -/
def spanSpaces (s : List Char) : List Char × List Char :=
  (s.takeWhile (fun c => isSpaceChar c), s.dropWhile (fun c => isSpaceChar c))

/-- Whether the pattern occurs at the very start of the list
    (an exact, case-sensitive anchored test). -/
def leadsWith : List Char → List Char → Bool
  | [], _ => true
  | _ :: _, [] => false
  | p :: ps, c :: cs => p == c && leadsWith ps cs

/-- Python substring containment: the pattern occurs somewhere in the list. -/
def containsSub (sub : List Char) : List Char → Bool
  | [] => sub.isEmpty
  | c :: r => leadsWith sub (c :: r) || containsSub sub r

/-- Match a lowercase literal pattern case-insensitively at the start of the
    input, returning the remainder on success. -/
def matchLitCI : List Char → List Char → Option (List Char)
  | [], s => some s
  | _ :: _, [] => none
  | p :: ps, c :: cs => if c.toLower == p then matchLitCI ps cs else none

/-- Like matchLitCI but also returns the consumed characters
    (needed where the regex captures the matched text). -/
def matchLitCapCI : List Char → List Char → Option (List Char × List Char)
  | [], s => some ([], s)
  | _ :: _, [] => none
  | p :: ps, c :: cs =>
    if c.toLower == p then
      match matchLitCapCI ps cs with
      | some (cap, rest) => some (c :: cap, rest)
      | none => none
    else none

/-- Lazy capture: everything before the first position where the boundary
    predicate fires (or the whole list when it never fires). -/
def takeUntilB (b : List Char → Bool) : List Char → List Char
  | [] => []
  | c :: r => if b (c :: r) then [] else c :: takeUntilB b r

/-- The suffix of a whitespace run after its last newline; used to model the
    greedy backslash-s-star before a literal newline in the section headers. -/
def afterLastNewline (w : List Char) : List Char :=
  (w.reverse.takeWhile (fun c => ¬ c == '\n')).reverse

/-- Python str.upper on a character list (ASCII). -/
def toUpperList (s : List Char) : List Char := s.map Char.toUpper

/-- Python str.lower on a character list (ASCII). -/
def toLowerList (s : List Char) : List Char := s.map Char.toLower

/-- Python str.replace of a space by an underscore. -/
def replaceSpaceUnderscore (s : List Char) : List Char :=
  s.map (fun c => if c == ' ' then '_' else c)

/-- Python str.strip: remove whitespace from both ends. -/
def stripChars (s : List Char) : List Char :=
  ((s.dropWhile (fun c => isSpaceChar c)).reverse.dropWhile
    (fun c => isSpaceChar c)).reverse

/-- Leftmost search: try the matcher at every position from the left and
    return the first success (the semantics of a regex search). -/
def searchFirst (f : List Char → Option α) : List Char → Option α
  | [] => f []
  | c :: r =>
    match f (c :: r) with
    | some v => some v
    | none => searchFirst f r

/-! ## Attempt tracker (review_actions.py, module-level dictionary)

The Python module keeps a process-wide dict from issue number to attempt
count; it is embedded as an association-list state passed explicitly. -/

/-- The in-memory attempt-tracking state: issue number to attempt count. -/
abbrev AttemptStore := List (Int × Nat)

/-- Dictionary lookup. -/
def lookupAttempts : AttemptStore → Int → Option Nat
  | [], _ => none
  | (k, v) :: rest, i => if k = i then some v else lookupAttempts rest i

/-- Python dict.get with default 0. -/
def getAttempts (st : AttemptStore) (i : Int) : Nat :=
  (lookupAttempts st i).getD 0

/-- Dictionary assignment: replace the existing binding or append a new one. -/
def setAttempts : AttemptStore → Int → Nat → AttemptStore
  | [], i, v => [(i, v)]
  | (k, v0) :: rest, i, v =>
    if k = i then (i, v) :: rest else (k, v0) :: setAttempts rest i v

/-- Embeds check_reimplement_attempts: returns (allowed, current_count)
    and reads but never writes the state. -/
def check_reimplement_attempts (st : AttemptStore) (issue_number : Int)
    (max_attempts : Nat) : Bool × Nat :=
  let current_count := getAttempts st issue_number
  (decide (current_count < max_attempts), current_count)

/-- Embeds increment_reimplement_attempts: stores and returns the previous
    count plus one. -/
def increment_reimplement_attempts (st : AttemptStore) (issue_number : Int) :
    AttemptStore × Nat :=
  let current_count := getAttempts st issue_number
  let new_count := current_count + 1
  (setAttempts st issue_number new_count, new_count)

/-- Embeds reset_reimplement_attempts: deletes the entry when present
    (a no-op otherwise). -/
def reset_reimplement_attempts (st : AttemptStore) (issue_number : Int) :
    AttemptStore :=
  st.filter (fun e => ¬ e.1 = issue_number)

/-! ## Deduplication cache (handlers.py, should_trigger_workflow) -/

/-- Cache key: (issue number, workflow type). -/
abbrev DedupKey := Int × String

/-- The in-memory dedup state: key to timestamp of last trigger. -/
abbrev DedupCache := List (DedupKey × Int)

/-- The fixed deduplication window from handlers.py. -/
def DEDUP_WINDOW_SECONDS : Int := 60

/-- Dictionary lookup in the dedup cache. -/
def lookupCache : DedupCache → DedupKey → Option Int
  | [], _ => none
  | (k, t) :: rest, key => if k = key then some t else lookupCache rest key

/-- Dictionary assignment in the dedup cache. -/
def setCache : DedupCache → DedupKey → Int → DedupCache
  | [], key, t => [(key, t)]
  | (k, t0) :: rest, key, t =>
    if k = key then (key, t) :: rest else (k, t0) :: setCache rest key t

/-- Embeds should_trigger_workflow: sweep entries older than the window,
    suppress a key seen within the window without refreshing its timestamp,
    otherwise record the current time and allow the trigger. -/
def should_trigger_workflow (cache : DedupCache) (current_time : Int)
    (issue_number : Int) (workflow_type : String) : Bool × DedupCache :=
  let cache_key : DedupKey := (issue_number, workflow_type)
  let swept := cache.filter
    (fun e => ¬ current_time - e.2 > DEDUP_WINDOW_SECONDS)
  match lookupCache swept cache_key with
  | some last_trigger =>
    if current_time - last_trigger < DEDUP_WINDOW_SECONDS then
      (false, swept)
    else
      (true, setCache swept cache_key current_time)
  | none => (true, setCache swept cache_key current_time)

/-! ## Length lemmas used for termination of the findall loops -/

theorem length_dropWhile_le (p : Char → Bool) (l : List Char) :
    (l.dropWhile p).length ≤ l.length := by
  induction l with
  | nil => simp [List.dropWhile]
  | cons c r ih =>
    simp only [List.dropWhile]
    by_cases h : p c
    · simp [h]; omega
    · simp [h]

theorem length_takeWhile_le (p : Char → Bool) (l : List Char) :
    (l.takeWhile p).length ≤ l.length := by
  induction l with
  | nil => simp [List.takeWhile]
  | cons c r ih =>
    simp only [List.takeWhile]
    by_cases h : p c
    · simp [h]; omega
    · simp [h]

theorem matchLitCI_length (p : List Char) (s : List Char) (r : List Char)
    (h : matchLitCI p s = some r) : r.length + p.length = s.length := by
  induction p generalizing s r with
  | nil => simp [matchLitCI] at h; simp [h]
  | cons a ps ih =>
    cases s with
    | nil => simp [matchLitCI] at h
    | cons c cs =>
      simp only [matchLitCI] at h
      by_cases hc : c.toLower == a
      · simp [hc] at h
        have := ih cs r h
        simp; omega
      · simp [hc] at h

/-! ## The embedded review parser (review_actions.py)

Each regex of the source is simple enough that its backtracking is
determinate: every greedy whitespace run is followed by a character that is
never whitespace, so the maximal run is the unique viable choice, and the
one place where a greedy run precedes a literal newline is resolved by the
run keeping everything up to its last newline. -/

/-- Match the capture group of the approval-status pattern: the alternation
    of the three status tokens, each word matched case-insensitively with an
    optional internal whitespace run. Returns the captured text. -/
def matchStatusToken (s : List Char) : Option (List Char × List Char) :=
  match matchLitCapCI ("approved".data) s with
  | some (cap, rest) => some (cap, rest)
  | none =>
    match matchLitCapCI ("changes".data) s with
    | some (cap1, rest1) =>
      let (w, rest2) := spanSpaces rest1
      match matchLitCapCI ("requested".data) rest2 with
      | some (cap2, rest3) => some (cap1 ++ w ++ cap2, rest3)
      | none => none
    | none =>
      match matchLitCapCI ("needs".data) s with
      | some (cap1, rest1) =>
        let (w, rest2) := spanSpaces rest1
        match matchLitCapCI ("discussion".data) rest2 with
        | some (cap2, rest3) => some (cap1 ++ w ++ cap2, rest3)
        | none => none
      | none => none

/-- Attempt the approval-status pattern at the start of the input: two
    hashes, whitespace, the words Approval and Status (case-insensitive),
    a whitespace run that must contain a newline, an optional opening
    bracket, whitespace, then a status token. The trailing whitespace and
    optional closing bracket of the source pattern always match and do not
    affect the captured group, so the capture is returned directly. -/
def matchApprovalAt (s : List Char) : Option (List Char) :=
  match s with
  | a :: b :: s1 =>
    if a = '#' ∧ b = '#' then
      let (_, s2) := spanSpaces s1
      match matchLitCI ("approval".data) s2 with
      | none => none
      | some s3 =>
        let (_, s4) := spanSpaces s3
        match matchLitCI ("status".data) s4 with
        | none => none
        | some s5 =>
          let (w, s6) := spanSpaces s5
          if w.contains '\n' then
            let s7 : List Char := match s6 with
              | [] => []
              | c :: r => if c = '[' then r else c :: r
            let (_, s8) := spanSpaces s7
            match matchStatusToken s8 with
            | some (cap, _) => some cap
            | none => none
          else none
    else none
  | _ => none

/-- Boundary of the lazy summary and recommendations captures: a newline
    followed by two hashes (the source pattern has no negative lookahead
    here, so a sub-heading line of three hashes also fires it). -/
def isSectionBoundary (s : List Char) : Bool :=
  leadsWith ['\n', '#', '#'] s

/-- Attempt a two-hash section header (Summary or Recommendations) at the
    start of the input and return the raw captured section body. -/
def matchSectionAt (name : List Char) (s : List Char) : Option (List Char) :=
  match s with
  | a :: b :: s1 =>
    if a = '#' ∧ b = '#' then
      let (_, s2) := spanSpaces s1
      match matchLitCI name s2 with
      | none => none
      | some s3 =>
        let (w, s4) := spanSpaces s3
        if w.contains '\n' then
          some (takeUntilB isSectionBoundary (afterLastNewline w ++ s4))
        else none
    else none
  | _ => none

/-- Boundary of the Issues Found capture: a newline followed by exactly two
    hashes (the source uses a negative lookahead so that sub-headings of
    three hashes do not end the section). -/
def isIssuesBoundary (s : List Char) : Bool :=
  leadsWith ['\n', '#', '#'] s && ¬ leadsWith ['\n', '#', '#', '#'] s

/-- Attempt the Issues Found header at the start of the input and return the
    raw captured section body. -/
def matchIssuesFoundAt (s : List Char) : Option (List Char) :=
  match s with
  | a :: b :: s1 =>
    if a = '#' ∧ b = '#' then
      let (_, s2) := spanSpaces s1
      match matchLitCI ("issues".data) s2 with
      | none => none
      | some s3 =>
        let (_, s4) := spanSpaces s3
        match matchLitCI ("found".data) s4 with
        | none => none
        | some s5 =>
          let (w, s6) := spanSpaces s5
          if w.contains '\n' then
            some (takeUntilB isIssuesBoundary (afterLastNewline w ++ s6))
          else none
    else none
  | _ => none

/-- Boundary of a severity capture: three hashes anywhere, or a newline
    followed by two hashes. -/
def isSeverityBoundary (s : List Char) : Bool :=
  leadsWith ['#', '#', '#'] s || leadsWith ['\n', '#', '#'] s

/-- Attempt a three-hash severity header at the start of the input and
    return the raw captured sub-section body. -/
def matchSeverityAt (name : List Char) (s : List Char) : Option (List Char) :=
  match s with
  | a :: b :: c :: s1 =>
    if a = '#' ∧ b = '#' ∧ c = '#' then
      let (_, s2) := spanSpaces s1
      match matchLitCI name s2 with
      | none => none
      | some s3 =>
        let (w, s4) := spanSpaces s3
        if w.contains '\n' then
          some (takeUntilB isSeverityBoundary (afterLastNewline w ++ s4))
        else none
    else none
  | _ => none

/-! ## The embedded list-item findall

The source extracts bulleted or numbered items with a findall of a pattern
matching a line start, optional whitespace, a dash, star, or number-dot
marker, optional whitespace and the rest of the line; the capture is the
rest of the line. The alternatives of the marker start with distinct
characters, so the alternation is determinate. -/

/-- Match a dash, star, or digits-dot item marker. -/
def matchMarker (s : List Char) : Option (List Char) :=
  match s with
  | [] => none
  | c :: r =>
    if c = '-' then some r
    else if c = '*' then some r
    else
      match (c :: r).takeWhile (fun x => x.isDigit) with
      | [] => none
      | _ :: _ =>
        match (c :: r).dropWhile (fun x => x.isDigit) with
        | [] => none
        | d :: r2 => if d = '.' then some r2 else none

/-- After the marker: a greedy whitespace run, then at least one non-newline
    character, captured to the end of the line. When the whitespace run
    reaches the end of the input, the greedy run backtracks so that the
    dot-plus consumes the last non-newline whitespace character of the run,
    as the source regex engine does. -/
def itemAfterMarker (s : List Char) : Option (List Char × List Char) :=
  let (run, rest) := spanSpaces s
  match rest with
  | _ :: _ =>
    some (rest.takeWhile (fun c => ¬ c == '\n'),
          rest.dropWhile (fun c => ¬ c == '\n'))
  | [] =>
    let rrun := run.reverse
    match rrun.dropWhile (fun c => c == '\n') with
    | c :: _ => some ([c], (rrun.takeWhile (fun c => c == '\n')).reverse)
    | [] => none

/-- Attempt the item pattern just after a line start. -/
def matchItemAt (s : List Char) : Option (List Char × List Char) :=
  match matchMarker (s.dropWhile (fun c => isSpaceChar c)) with
  | some s2 => itemAfterMarker s2
  | none => none

theorem matchMarker_length (s r : List Char) (h : matchMarker s = some r) :
    r.length < s.length := by
  cases s with
  | nil => simp [matchMarker] at h
  | cons c cs =>
    simp only [matchMarker] at h
    by_cases h1 : c = '-'
    · simp [h1] at h; subst h; simp
    · by_cases h2 : c = '*'
      · simp [h1, h2] at h; subst h; simp
      · rw [if_neg h1, if_neg h2] at h
        rcases h3 : (c :: cs).takeWhile (fun x => x.isDigit) with _ | ⟨d, ds⟩ <;>
          rw [h3] at h
        · simp at h
        · rcases h4 : (c :: cs).dropWhile (fun x => x.isDigit) with _ | ⟨e, es⟩ <;>
            rw [h4] at h
          · simp at h
          · by_cases h5 : e = '.'
            · simp only [h5, if_pos] at h
              have hr : es = r := by simpa using h
              subst hr
              have hsum : ((c :: cs).takeWhile (fun x => x.isDigit)).length +
                  ((c :: cs).dropWhile (fun x => x.isDigit)).length =
                  (c :: cs).length := by
                rw [← List.length_append, List.takeWhile_append_dropWhile]
              rw [h3, h4] at hsum
              simp at hsum ⊢
              omega
            · simp [h5] at h

theorem itemAfterMarker_length (s : List Char) (g r : List Char)
    (h : itemAfterMarker s = some (g, r)) : r.length ≤ s.length := by
  simp only [itemAfterMarker, spanSpaces] at h
  rcases h3 : s.dropWhile (fun c => isSpaceChar c) with _ | ⟨c, cs⟩ <;>
    rw [h3] at h
  · rcases h4 : (s.takeWhile (fun c => isSpaceChar c)).reverse.dropWhile
        (fun c => c == '\n') with _ | ⟨e, es⟩ <;> rw [h4] at h
    · simp at h
    · simp only [Option.some.injEq, Prod.mk.injEq] at h
      have hr : ((s.takeWhile (fun c => isSpaceChar c)).reverse.takeWhile
          (fun c => c == '\n')).reverse = r := h.2
      have h5 := length_takeWhile_le (fun c => c == '\n')
        ((s.takeWhile (fun c => isSpaceChar c)).reverse)
      have h6 := length_takeWhile_le (fun c => isSpaceChar c) s
      rw [← hr]
      simp only [List.length_reverse] at h5 ⊢
      omega
  · simp only [Option.some.injEq, Prod.mk.injEq] at h
    have hr : (c :: cs).dropWhile (fun x => ¬ x == '\n') = r := h.2
    have h5 : r.length ≤ (c :: cs).length := by
      rw [← hr]; exact length_dropWhile_le _ _
    have h6 : ((c :: cs).length : Nat) ≤ s.length := h3 ▸ length_dropWhile_le _ _
    omega

theorem matchItemAt_length (s : List Char) (g r : List Char)
    (h : matchItemAt s = some (g, r)) : r.length ≤ s.length := by
  simp only [matchItemAt] at h
  rcases h1 : matchMarker (s.dropWhile (fun c => isSpaceChar c)) with _ | s2 <;>
    rw [h1] at h
  · simp at h
  · simp at h
    have h2 := matchMarker_length _ _ h1
    have h3 := itemAfterMarker_length _ _ _ h
    have h4 := length_dropWhile_le (fun c => isSpaceChar c) s
    omega

/-- The findall loop over line starts: at each newline, attempt the item
    pattern and continue after the match (or after the newline on failure).
    The fuel argument is only termination bookkeeping: by
    matchItemAt_length a match continuation never exceeds the remaining
    input, so fuel equal to the input length (as the wrapper passes) never
    runs out; structural recursion on it keeps the function reducible by
    the kernel. -/
def findItemsNL : Nat → List Char → List (List Char)
  | 0, _ => []
  | _ + 1, [] => []
  | fuel + 1, c :: rest =>
    if c = '\n' then
      match matchItemAt rest with
      | some (g, r) => g :: findItemsNL fuel r
      | none => findItemsNL fuel rest
    else findItemsNL fuel rest

/-- The full findall: the line-start alternation also matches at the very
    start of the input. -/
def findItems (s : List Char) : List (List Char) :=
  match matchItemAt s with
  | some (g, r) => g :: findItemsNL r.length r
  | none => findItemsNL s.length s

/-- Python list comprehension over findall results: strip each item and
    keep the nonempty ones. -/
def cleanItems (items : List (List Char)) : List String :=
  ((items.map stripChars).filter (fun x => ¬ x.isEmpty)).map
    (fun x => String.mk x)

/-! ## parse_review_status and extract_review_issues -/

/-- Embeds parse_review_status: a triple of the approval status, the
    summary section, and the recommendations list. The final branch of the
    source leaves the default in place when the captured token somehow
    matches none of the keywords; the default equals the needs-discussion
    answer, as written here. -/
def parse_review_status (review_output : String) : String × String × List String :=
  let s := review_output.data
  let approval_status :=
    match searchFirst matchApprovalAt s with
    | some cap =>
      let status_text := replaceSpaceUnderscore (toUpperList cap)
      if containsSub ("APPROVED".data) status_text then "APPROVED"
      else if containsSub ("CHANGES".data) status_text then "CHANGES_REQUESTED"
      else "NEEDS_DISCUSSION"
    | none =>
      if containsSub ("APPROVED".data) s then "APPROVED"
      else if containsSub ("CHANGES REQUESTED".data) s ||
          containsSub ("CHANGES_REQUESTED".data) s then "CHANGES_REQUESTED"
      else "NEEDS_DISCUSSION"
  let summary :=
    match searchFirst (matchSectionAt ("summary".data)) s with
    | some cap => String.mk (stripChars cap)
    | none => ""
  let recommendations :=
    match searchFirst (matchSectionAt ("recommendations".data)) s with
    | some cap => cleanItems (findItems (stripChars cap))
    | none => []
  (approval_status, summary, recommendations)

/-- The result of extract_review_issues: issue texts per severity. -/
structure ReviewIssues where
  critical : List String
  moderate : List String
  minor : List String
deriving DecidableEq

/-- One severity sub-section: absent yields the empty list; a body that
    strips to the word None in any letter case is skipped; otherwise the
    items of the body. -/
def extractSeverity (issuesText : List Char) (name : List Char) : List String :=
  match searchFirst (matchSeverityAt name) issuesText with
  | some cap =>
    let severity_text := stripChars cap
    if toLowerList severity_text = "none".data then []
    else cleanItems (findItems severity_text)
  | none => []

/-- Embeds extract_review_issues. -/
def extract_review_issues (review_output : String) : ReviewIssues :=
  match searchFirst matchIssuesFoundAt review_output.data with
  | none => ⟨[], [], []⟩
  | some issuesText =>
    ⟨extractSeverity issuesText ("critical".data),
     extractSeverity issuesText ("moderate".data),
     extractSeverity issuesText ("minor".data)⟩

/-! ## extract_issue_references (handlers.py) -/

/-- Convert a nonempty digit run to the number it denotes. -/
def digitsToNat (ds : List Char) : Nat :=
  ds.foldl (fun n c => n * 10 + (c.toNat - 48)) 0

/-- The part of the issue-reference pattern after the keyword: at least one
    whitespace character, a hash, and a nonempty digit run. Returns the
    number and the remainder after the match. -/
def matchRefTail (s1 : List Char) : Option (Nat × List Char) :=
  match s1.takeWhile (fun c => isSpaceChar c) with
  | [] => none
  | _ :: _ =>
    match s1.dropWhile (fun c => isSpaceChar c) with
    | [] => none
    | c :: s3 =>
      if c = '#' then
        match s3.takeWhile (fun x => x.isDigit) with
        | [] => none
        | d :: ds =>
          some (digitsToNat (d :: ds), s3.dropWhile (fun x => x.isDigit))
      else none

/-- Attempt one issue reference at the start of the input: one of the
    keywords closes, fixes, resolves (case-insensitive, tried in the order
    of the source alternation; their first letters differ so the choice is
    determinate), then the whitespace-hash-digits tail. -/
def matchIssueRefAt (s : List Char) : Option (Nat × List Char) :=
  match matchLitCI ("closes".data) s with
  | some s1 => matchRefTail s1
  | none =>
    match matchLitCI ("fixes".data) s with
    | some s1 => matchRefTail s1
    | none =>
      match matchLitCI ("resolves".data) s with
      | some s1 => matchRefTail s1
      | none => none

theorem matchRefTail_length (s1 : List Char) (n : Nat) (r : List Char)
    (h : matchRefTail s1 = some (n, r)) : r.length ≤ s1.length := by
  unfold matchRefTail at h
  split at h
  · simp at h
  · split at h
    · simp at h
    next c s3 h2 =>
      split at h
      · split at h
        · simp at h
        next d ds h5 =>
          simp only [Option.some.injEq, Prod.mk.injEq] at h
          have hr : s3.dropWhile (fun x => x.isDigit) = r := h.2
          have l1 : r.length ≤ s3.length := by
            rw [← hr]; exact length_dropWhile_le _ _
          have l2 : ((c :: s3).length : Nat) ≤ s1.length :=
            h2 ▸ length_dropWhile_le _ _
          simp at l2
          omega
      · simp at h

theorem matchIssueRefAt_length (s : List Char) (n : Nat) (r : List Char)
    (h : matchIssueRefAt s = some (n, r)) : r.length < s.length := by
  unfold matchIssueRefAt at h
  split at h
  next s1 hk =>
    have l1 := matchLitCI_length _ _ _ hk
    have l2 := matchRefTail_length _ _ _ h
    have hw : ((("closes".data : List Char)).length : Nat) = 6 := by decide
    omega
  · split at h
    next s1 hk =>
      have l1 := matchLitCI_length _ _ _ hk
      have l2 := matchRefTail_length _ _ _ h
      have hw : ((("fixes".data : List Char)).length : Nat) = 5 := by decide
      omega
    · split at h
      next s1 hk =>
        have l1 := matchLitCI_length _ _ _ hk
        have l2 := matchRefTail_length _ _ _ h
        have hw : ((("resolves".data : List Char)).length : Nat) = 8 := by decide
        omega
      · simp at h

/-- The findall loop over the whole body: at every position attempt the
    reference pattern, collecting matches left to right without overlap.
    The fuel argument is only termination bookkeeping: by
    matchIssueRefAt_length a match continuation is strictly shorter than
    the input, so fuel equal to the body length (as the wrapper passes)
    never runs out; structural recursion on it keeps the function
    reducible by the kernel. -/
def findIssueRefsFuel : Nat → List Char → List Nat
  | 0, _ => []
  | _ + 1, [] => []
  | fuel + 1, c :: r =>
    match matchIssueRefAt (c :: r) with
    | some (n, rest) => n :: findIssueRefsFuel fuel rest
    | none => findIssueRefsFuel fuel r

/-- The findall over the whole body. -/
def findIssueRefs (s : List Char) : List Nat :=
  findIssueRefsFuel s.length s

/-- Deduplication of the extracted numbers. The source converts the findall
    results through a set, whose iteration order is unspecified; the claims
    evaluated here involve at most one distinct number, for which every
    order coincides. This embedding keeps the last occurrence of each. -/
def dedupNat : List Nat → List Nat
  | [] => []
  | n :: r => if r.contains n then dedupNat r else n :: dedupNat r

/-- Embeds extract_issue_references: empty/absent body yields no references,
    otherwise the deduplicated findall results. -/
def extract_issue_references (pr_body : String) : List Nat :=
  if pr_body == "" then []
  else dedupNat (findIssueRefs pr_body.data)

/-! ## handle_review_results (review_actions.py)

The orchestrator is async with side effects; it is embedded as a pure
function from its inputs, the configuration, the attempt-tracker state, and
the responses of its external collaborators (the merge call, the generated
workflow id, and the re-implementation sub-workflow, which may raise) to
the returned result dictionary, the new attempt-tracker state, and the
ordered list of side effects performed. Comment posting is an effect whose
failure the source only logs, so it carries no response. -/

/-- Python str.split on a single slash separator: an empty string yields
    one empty piece, and every slash starts a new piece. -/
def splitSlash : List Char → List (List Char)
  | [] => [[]]
  | c :: r =>
    let rest := splitSlash r
    if c = '/' then [] :: rest
    else
      match rest with
      | [] => [[c]]
      | x :: xs => (c :: x) :: xs

/-- The result of one external agent workflow invocation
    (adw_integration.WorkflowResult; the fields the orchestrator reads). -/
structure WorkflowResult where
  success : Bool
  output : String
  adw_id : String
deriving DecidableEq

/-- The configuration knobs read by the orchestrator (config.py). -/
structure Config where
  auto_merge_on_approval : Bool
  auto_reimplement_on_changes : Bool
  merge_method : String
  max_reimplement_attempts : Nat
deriving DecidableEq

/-- The side-effecting external calls the orchestrator can perform. -/
inductive Effect where
  | mergePR (pr_number : Nat) (repo_owner repo_name merge_method : String)
  | resetAttempts (issue_number : Int)
  | postMergeComment (issue_number : Int) (merge_success : Bool)
  | postMaxAttemptsComment (issue_number : Int)
  | triggerReimplementation (issue_number : Int) (adw_id : String)
      (prompt : String)
  | postReimplementationComment (issue_number : Int)
deriving DecidableEq

/-- The returned dictionary: keys that are only set on some paths are
    embedded as optional fields. -/
structure ActionResult where
  action : String
  success : Bool
  error : Option String
  approval_status : Option String
  summary : Option String
  recommendations : Option (List String)
  issues : Option ReviewIssues
  merge_attempted : Option Bool
  attempt_count : Option Nat
  reimplementation_attempted : Option Bool
  new_adw_id : Option String
  chore_result : Option WorkflowResult
  impl_result : Option (Option WorkflowResult)
deriving DecidableEq

/-- One severity block of the feedback text built for re-implementation. -/
def severityBlock (name : String) (items : List String) : List String :=
  if items.isEmpty then []
  else ("### " ++ name ++ "\n") :: items.map (fun issue => "- " ++ issue ++ "\n")

/-- The feedback text handed to the re-implementation workflow: summary,
    nonempty severity buckets, and numbered recommendations, joined by
    blank lines as the source's join does. -/
def buildReviewFeedback (summary : String) (issues : ReviewIssues)
    (recommendations : List String) : String :=
  let p1 : List String :=
    if summary == "" then [] else ["## Summary\n" ++ summary ++ "\n"]
  let anyIssues := ¬ (issues.critical.isEmpty && issues.moderate.isEmpty &&
    issues.minor.isEmpty)
  let p2 : List String :=
    if anyIssues then
      ("## Issues Found\n") ::
        (severityBlock "Critical" issues.critical ++
         severityBlock "Moderate" issues.moderate ++
         severityBlock "Minor" issues.minor)
    else []
  let p3 : List String :=
    if recommendations.isEmpty then []
    else ("## Recommendations\n") ::
      (recommendations.enum.map
        (fun x => toString (x.1 + 1) ++ ". " ++ x.2 ++ "\n"))
  String.intercalate "\n" (p1 ++ p2 ++ p3)

/-- The augmented prompt template of trigger_reimplementation. -/
def buildEnhancedPrompt (original_prompt review_feedback : String) : String :=
  "# Original Task\n" ++ original_prompt ++ "\n\n# Review Feedback\n" ++
  "The previous implementation was reviewed and requires changes. " ++
  "Please address the following feedback:\n\n" ++ review_feedback ++
  "\n\n# Instructions\n" ++
  "Re-implement the task above, making sure to address all review " ++
  "feedback. Pay special attention to the issues identified in the review.\n"

/-- Embeds handle_review_results. The parameters merge_ok, new_adw_id and
    reimpl_outcome are the responses of the external collaborators: the
    merge subprocess result, the freshly generated workflow id, and the
    re-implementation sub-workflow (an exception becomes an error value). -/
def handle_review_results (review_result : WorkflowResult) (pr_number : Nat)
    (issue_numbers : List Int) (repo_full_name : String)
    (original_prompt : String) (config : Config) (attempts : AttemptStore)
    (merge_ok : Bool) (new_adw_id : String)
    (reimpl_outcome : Except String (WorkflowResult × Option WorkflowResult)) :
    ActionResult × AttemptStore × List Effect :=
  match (splitSlash repo_full_name.data).map (fun x => String.mk x) with
  | [repo_owner, repo_name] =>
    let parsed := parse_review_status review_result.output
    let approval_status := parsed.1
    let summary := parsed.2.1
    let recommendations := parsed.2.2
    let issues := extract_review_issues review_result.output
    let base : ActionResult :=
      { action := String.mk (toLowerList approval_status.data),
        success := false, error := none,
        approval_status := some approval_status, summary := some summary,
        recommendations := some recommendations, issues := some issues,
        merge_attempted := none, attempt_count := none,
        reimplementation_attempted := none, new_adw_id := none,
        chore_result := none, impl_result := none }
    if approval_status == "APPROVED" && config.auto_merge_on_approval then
      let attempts1 :=
        if merge_ok && ¬ issue_numbers.isEmpty then
          issue_numbers.foldl (fun st i => reset_reimplement_attempts st i)
            attempts
        else attempts
      let resetEffects :=
        if merge_ok && ¬ issue_numbers.isEmpty then
          issue_numbers.map (fun i => Effect.resetAttempts i)
        else []
      ({ base with
          success := merge_ok,
          merge_attempted := some true },
       attempts1,
       Effect.mergePR pr_number repo_owner repo_name config.merge_method ::
         (resetEffects ++
          issue_numbers.map (fun i => Effect.postMergeComment i merge_ok)))
    else if approval_status == "CHANGES_REQUESTED" &&
        config.auto_reimplement_on_changes then
      let primary_issue := issue_numbers.headD 0
      let chk := check_reimplement_attempts attempts primary_issue
        config.max_reimplement_attempts
      if ¬ chk.1 then
        ({ base with
            action := "max_attempts_reached",
            success := false,
            attempt_count := some chk.2 },
         attempts,
         issue_numbers.map (fun i => Effect.postMaxAttemptsComment i))
      else
        let inc := increment_reimplement_attempts attempts primary_issue
        let review_feedback :=
          buildReviewFeedback summary issues recommendations
        let enhanced_prompt := buildEnhancedPrompt original_prompt
          review_feedback
        let trigEff := Effect.triggerReimplementation primary_issue new_adw_id
          enhanced_prompt
        match reimpl_outcome with
        | Except.ok (chore_result, impl_result) =>
          ({ base with
              success := chore_result.success,
              attempt_count := some inc.2,
              reimplementation_attempted := some true,
              new_adw_id := some new_adw_id,
              chore_result := some chore_result,
              impl_result := some impl_result },
           inc.1,
           trigEff ::
             issue_numbers.map (fun i => Effect.postReimplementationComment i))
        | Except.error e =>
          ({ base with
              success := false,
              error := some e,
              attempt_count := some inc.2 },
           inc.1, [trigEff])
    else
      ({ base with
          action := "comment_only",
          success := true },
       attempts, [])
  | _ =>
    ({ action := "error",
       success := false,
       error := some "Invalid repository name format",
       approval_status := none, summary := none, recommendations := none,
       issues := none, merge_attempted := none, attempt_count := none,
       reimplementation_attempted := none, new_adw_id := none,
       chore_result := none, impl_result := none },
     attempts, [])

/-! ## Association-list store lemmas -/

theorem lookup_setAttempts_self (st : AttemptStore) (i : Int) (v : Nat) :
    lookupAttempts (setAttempts st i v) i = some v := by
  induction st with
  | nil => simp [setAttempts, lookupAttempts]
  | cons e rest ih =>
    obtain ⟨k, v0⟩ := e
    by_cases h : k = i
    · simp [setAttempts, h, lookupAttempts]
    · simp [setAttempts, h, lookupAttempts, ih]

theorem lookup_setAttempts_other (st : AttemptStore) (i j : Int) (v : Nat)
    (h : ¬ j = i) :
    lookupAttempts (setAttempts st i v) j = lookupAttempts st j := by
  have h2 : ¬ i = j := fun hh => h hh.symm
  induction st with
  | nil => simp [setAttempts, lookupAttempts, h2]
  | cons e rest ih =>
    obtain ⟨k, v0⟩ := e
    by_cases hk : k = i
    · subst hk
      simp [setAttempts, lookupAttempts, h2]
    · simp [setAttempts, hk, lookupAttempts, ih]

theorem lookup_reset_self (st : AttemptStore) (i : Int) :
    lookupAttempts (reset_reimplement_attempts st i) i = none := by
  induction st with
  | nil => simp [reset_reimplement_attempts, lookupAttempts]
  | cons e rest ih =>
    obtain ⟨k, v0⟩ := e
    by_cases h : k = i
    · simpa [reset_reimplement_attempts, h] using ih
    · simpa [reset_reimplement_attempts, h, lookupAttempts] using ih

theorem getAttempts_increment (st : AttemptStore) (i : Int) :
    getAttempts (increment_reimplement_attempts st i).1 i =
      getAttempts st i + 1 := by
  simp [increment_reimplement_attempts, getAttempts, lookup_setAttempts_self]

theorem reset_reimplement_attempts_idem (st : AttemptStore) (i : Int) :
    reset_reimplement_attempts (reset_reimplement_attempts st i) i =
      reset_reimplement_attempts st i := by
  induction st with
  | nil => rfl
  | cons e rest ih =>
    obtain ⟨k, v0⟩ := e
    by_cases h : k = i
    · simpa [reset_reimplement_attempts, h] using ih
    · simp only [reset_reimplement_attempts] at ih ⊢
      simp [List.filter_cons, h, ih]

/-- C3: the attempt tracker satisfies its contract: check reports
    (count below max, count) without mutating; increment stores and
    returns the previous count plus one; reset removes the entry and is
    idempotent; from a fresh entry, three increments make check report
    not-allowed with count 3 under max 3, and a reset makes it report
    allowed with count 0. Check is embedded as a function that returns no
    state at all, which is the nonmutation guarantee. -/
theorem C3_attempt_tracker (st : AttemptStore) (i : Int) (m : Nat)
    (hfresh : lookupAttempts st i = none) :
    ((check_reimplement_attempts st i m).1 = true ↔
      (check_reimplement_attempts st i m).2 < m) ∧
    (check_reimplement_attempts st i m).2 = getAttempts st i ∧
    (increment_reimplement_attempts st i).2 = getAttempts st i + 1 ∧
    lookupAttempts (increment_reimplement_attempts st i).1 i =
      some (getAttempts st i + 1) ∧
    lookupAttempts (reset_reimplement_attempts st i) i = none ∧
    reset_reimplement_attempts (reset_reimplement_attempts st i) i =
      reset_reimplement_attempts st i ∧
    check_reimplement_attempts
        (increment_reimplement_attempts
          (increment_reimplement_attempts
            (increment_reimplement_attempts st i).1 i).1 i).1 i 3 =
      (false, 3) ∧
    check_reimplement_attempts
        (reset_reimplement_attempts
          (increment_reimplement_attempts
            (increment_reimplement_attempts
              (increment_reimplement_attempts st i).1 i).1 i).1 i) i 3 =
      (true, 0) := by
  have h0 : getAttempts st i = 0 := by simp [getAttempts, hfresh]
  have hg3 : getAttempts
      (increment_reimplement_attempts
        (increment_reimplement_attempts
          (increment_reimplement_attempts st i).1 i).1 i).1 i = 3 := by
    rw [getAttempts_increment, getAttempts_increment, getAttempts_increment,
      h0]
  refine ⟨by simp [check_reimplement_attempts],
          by simp [check_reimplement_attempts],
          by simp [increment_reimplement_attempts],
          by simp [increment_reimplement_attempts, lookup_setAttempts_self],
          lookup_reset_self st i,
          reset_reimplement_attempts_idem st i,
          by simp [check_reimplement_attempts, hg3],
          ?_⟩
  have : lookupAttempts
      (reset_reimplement_attempts
        (increment_reimplement_attempts
          (increment_reimplement_attempts
            (increment_reimplement_attempts st i).1 i).1 i).1 i) i = none :=
    lookup_reset_self _ i
  simp [check_reimplement_attempts, getAttempts, this]

/-- Witness for C3 at the empty store and issue 42: the boundary clause
    evaluated concretely. -/
theorem C3_attempt_tracker_witness :
    check_reimplement_attempts
        (increment_reimplement_attempts
          (increment_reimplement_attempts
            (increment_reimplement_attempts ([] : AttemptStore) 42).1 42).1
          42).1 42 3 =
      (false, 3) :=
  (C3_attempt_tracker [] 42 3 (by decide)).2.2.2.2.2.2.1

/-! ## Dedup cache lemmas -/

theorem lookupCache_none_of_noKey (cache : DedupCache) (key : DedupKey)
    (h : ∀ e ∈ cache, ¬ e.1 = key) : lookupCache cache key = none := by
  induction cache with
  | nil => rfl
  | cons e rest ih =>
    obtain ⟨k0, t0⟩ := e
    have h1 : ¬ (k0, t0).1 = key := h _ (by simp)
    simp only [lookupCache]
    rw [if_neg h1]
    exact ih (fun e he => h e (by simp [he]))

theorem setCache_append_of_noKey (cache : DedupCache) (key : DedupKey)
    (t : Int) (h : ∀ e ∈ cache, ¬ e.1 = key) :
    setCache cache key t = cache ++ [(key, t)] := by
  induction cache with
  | nil => rfl
  | cons e rest ih =>
    obtain ⟨k0, t0⟩ := e
    have h1 : ¬ (k0, t0).1 = key := h _ (by simp)
    simp only [setCache]
    rw [if_neg (by simpa using h1)]
    simp [ih (fun e he => h e (by simp [he]))]

theorem lookupCache_append_of_noKey (cache : DedupCache) (l2 : DedupCache)
    (key : DedupKey) (h : ∀ e ∈ cache, ¬ e.1 = key) :
    lookupCache (cache ++ l2) key = lookupCache l2 key := by
  induction cache with
  | nil => rfl
  | cons e rest ih =>
    obtain ⟨k0, t0⟩ := e
    have h1 : ¬ (k0, t0).1 = key := h _ (by simp)
    simp only [List.cons_append, lookupCache]
    rw [if_neg h1]
    exact ih (fun e he => h e (by simp [he]))

theorem stw_of_lookup_none (cache : DedupCache) (now i : Int) (k : String)
    (h : lookupCache
      (cache.filter (fun e => ¬ now - e.2 > DEDUP_WINDOW_SECONDS)) (i, k) =
      none) :
    should_trigger_workflow cache now i k =
      (true, setCache
        (cache.filter (fun e => ¬ now - e.2 > DEDUP_WINDOW_SECONDS))
        (i, k) now) := by
  simp only [should_trigger_workflow]
  rw [h]

theorem stw_of_lookup_fresh (cache : DedupCache) (now i : Int) (k : String)
    (last : Int)
    (h : lookupCache
      (cache.filter (fun e => ¬ now - e.2 > DEDUP_WINDOW_SECONDS)) (i, k) =
      some last)
    (hlt : now - last < DEDUP_WINDOW_SECONDS) :
    should_trigger_workflow cache now i k =
      (false, cache.filter (fun e => ¬ now - e.2 > DEDUP_WINDOW_SECONDS)) := by
  simp only [should_trigger_workflow]
  rw [h]
  simp [hlt]

theorem stw_of_lookup_stale (cache : DedupCache) (now i : Int) (k : String)
    (last : Int)
    (h : lookupCache
      (cache.filter (fun e => ¬ now - e.2 > DEDUP_WINDOW_SECONDS)) (i, k) =
      some last)
    (hge : ¬ now - last < DEDUP_WINDOW_SECONDS) :
    should_trigger_workflow cache now i k =
      (true, setCache
        (cache.filter (fun e => ¬ now - e.2 > DEDUP_WINDOW_SECONDS))
        (i, k) now) := by
  simp only [should_trigger_workflow]
  rw [h]
  simp [hge]

/-- C2: dedup window behavior: a first call on a cache with no live entry
    for the key returns true and records the time; a second call on the
    same key within the window returns false and leaves the stored
    timestamp untouched; a call at or after the window boundary returns
    true again; and consing an entry for a different key does not change
    the answer for another key. -/
theorem C2_dedup_window (cache : DedupCache) (i : Int) (k : String)
    (now1 now2 now3 : Int) (j : Int) (k2 : String) (t : Int)
    (hstale : ∀ e ∈ cache, e.1 = (i, k) →
      now1 - e.2 > DEDUP_WINDOW_SECONDS) :
    (should_trigger_workflow cache now1 i k).1 = true ∧
    lookupCache (should_trigger_workflow cache now1 i k).2 (i, k) =
      some now1 ∧
    (now2 - now1 < DEDUP_WINDOW_SECONDS →
      (should_trigger_workflow
          (should_trigger_workflow cache now1 i k).2 now2 i k).1 = false ∧
      lookupCache
        (should_trigger_workflow
          (should_trigger_workflow cache now1 i k).2 now2 i k).2 (i, k) =
        some now1) ∧
    (now3 - now1 ≥ DEDUP_WINDOW_SECONDS →
      (should_trigger_workflow
          (should_trigger_workflow cache now1 i k).2 now3 i k).1 = true) ∧
    (¬ (j, k2) = (i, k) →
      (should_trigger_workflow (((i, k), t) :: cache) now1 j k2).1 =
        (should_trigger_workflow cache now1 j k2).1) := by
  have hnoKey : ∀ e ∈ cache.filter
      (fun e => ¬ now1 - e.2 > DEDUP_WINDOW_SECONDS), ¬ e.1 = (i, k) := by
    intro e he heq
    have hmem := List.mem_filter.mp he
    have := hstale e hmem.1 heq
    have hq2 := hmem.2
    simp at hq2
    omega
  have hlook1 : lookupCache
      (cache.filter (fun e => ¬ now1 - e.2 > DEDUP_WINDOW_SECONDS)) (i, k) =
      none :=
    lookupCache_none_of_noKey _ _ hnoKey
  have hcall1 : should_trigger_workflow cache now1 i k =
      (true, cache.filter (fun e => ¬ now1 - e.2 > DEDUP_WINDOW_SECONDS) ++
        [((i, k), now1)]) := by
    rw [stw_of_lookup_none cache now1 i k hlook1,
      setCache_append_of_noKey _ _ _ hnoKey]
  have hsweep : ∀ now : Int, ¬ now - now1 > DEDUP_WINDOW_SECONDS →
      (cache.filter (fun e => ¬ now1 - e.2 > DEDUP_WINDOW_SECONDS) ++
        [((i, k), now1)]).filter
        (fun e => ¬ now - e.2 > DEDUP_WINDOW_SECONDS) =
      (cache.filter (fun e => ¬ now1 - e.2 > DEDUP_WINDOW_SECONDS)).filter
        (fun e => ¬ now - e.2 > DEDUP_WINDOW_SECONDS) ++ [((i, k), now1)] := by
    intro now hnow
    rw [List.filter_append, List.filter_cons, if_pos (by simpa using hnow)]
    simp
  have hnoKeyF : ∀ now : Int, ∀ e ∈
      (cache.filter (fun e => ¬ now1 - e.2 > DEDUP_WINDOW_SECONDS)).filter
        (fun e => ¬ now - e.2 > DEDUP_WINDOW_SECONDS), ¬ e.1 = (i, k) := by
    intro now e he
    exact hnoKey e (List.mem_filter.mp he).1
  have hlookAfter : ∀ now : Int, ¬ now - now1 > DEDUP_WINDOW_SECONDS →
      lookupCache
        ((cache.filter (fun e => ¬ now1 - e.2 > DEDUP_WINDOW_SECONDS) ++
          [((i, k), now1)]).filter
          (fun e => ¬ now - e.2 > DEDUP_WINDOW_SECONDS)) (i, k) =
      some now1 := by
    intro now hnow
    rw [hsweep now hnow, lookupCache_append_of_noKey _ _ _ (hnoKeyF now)]
    simp [lookupCache]
  refine ⟨by rw [hcall1],
          by rw [hcall1]
             rw [lookupCache_append_of_noKey _ _ _ hnoKey]
             simp [lookupCache], ?_, ?_, ?_⟩
  · intro hwin
    rw [hcall1]
    have hfresh2 := hlookAfter now2 (by omega)
    rw [stw_of_lookup_fresh _ now2 i k now1 hfresh2 hwin]
    refine ⟨rfl, ?_⟩
    exact hfresh2
  · intro hwin
    rw [hcall1]
    by_cases hgone : now3 - now1 > DEDUP_WINDOW_SECONDS
    · have hnoKey3 : ∀ e ∈ (cache.filter
          (fun e => ¬ now1 - e.2 > DEDUP_WINDOW_SECONDS) ++
            [((i, k), now1)]).filter
          (fun e => ¬ now3 - e.2 > DEDUP_WINDOW_SECONDS), ¬ e.1 = (i, k) := by
        intro e he
        have hmem := List.mem_filter.mp he
        rcases List.mem_append.mp hmem.1 with hl | hr
        · exact hnoKey e hl
        · intro _
          simp at hr
          have h2 := hmem.2
          rw [hr] at h2
          simp at h2
          omega
      rw [stw_of_lookup_none _ now3 i k
        (lookupCache_none_of_noKey _ _ hnoKey3)]
    · have hstale3 := hlookAfter now3 hgone
      rw [stw_of_lookup_stale _ now3 i k now1 hstale3 (by omega)]
  · intro hne
    have hstep : lookupCache ((((i, k), t) :: cache).filter
          (fun e => ¬ now1 - e.2 > DEDUP_WINDOW_SECONDS)) (j, k2) =
        lookupCache (cache.filter
          (fun e => ¬ now1 - e.2 > DEDUP_WINDOW_SECONDS)) (j, k2) := by
      rw [List.filter_cons]
      by_cases hc : (¬ now1 - t > DEDUP_WINDOW_SECONDS : Prop)
      · rw [if_pos (by simpa using hc)]
        simp only [lookupCache]
        rw [if_neg (fun hh : ((i, k) : DedupKey) = (j, k2) => hne hh.symm)]
      · rw [if_neg (by simpa using hc)]
    rcases hl : lookupCache (cache.filter
        (fun e => ¬ now1 - e.2 > DEDUP_WINDOW_SECONDS)) (j, k2) with _ | last
    · rw [stw_of_lookup_none _ now1 j k2 (hstep.trans hl),
        stw_of_lookup_none _ now1 j k2 hl]
    · by_cases hlt : now1 - last < DEDUP_WINDOW_SECONDS
      · rw [stw_of_lookup_fresh _ now1 j k2 last (hstep.trans hl) hlt,
          stw_of_lookup_fresh _ now1 j k2 last hl hlt]
      · rw [stw_of_lookup_stale _ now1 j k2 last (hstep.trans hl) hlt,
          stw_of_lookup_stale _ now1 j k2 last hl hlt]

/-- Witness for C2 at the empty cache, key (1, chore), times 100, 130,
    160, and the independent key (2, chore): the suppressed-call clause
    evaluated concretely. -/
theorem C2_dedup_window_witness :
    (should_trigger_workflow
        (should_trigger_workflow ([] : DedupCache) 100 1 "chore").2
        130 1 "chore").1 = false :=
  ((C2_dedup_window [] 1 "chore" 100 130 160 2 "chore" 0
    (by intro e he; simp at he)).2.2.1 (by decide)).1

/-! ## Issue-reference extraction claims -/

theorem mem_dedupNat (l : List Nat) (x : Nat) (h : x ∈ dedupNat l) :
    x ∈ l := by
  induction l with
  | nil => simpa [dedupNat] using h
  | cons n r ih =>
    simp only [dedupNat] at h
    by_cases hc : r.contains n
    · rw [if_pos hc] at h
      exact List.mem_cons_of_mem _ (ih h)
    · rw [if_neg hc] at h
      rcases List.mem_cons.mp h with h1 | h1
      · simp [h1]
      · exact List.mem_cons_of_mem _ (ih h1)

theorem dedupNat_nodup (l : List Nat) : (dedupNat l).Nodup := by
  induction l with
  | nil => simp [dedupNat]
  | cons n r ih =>
    simp only [dedupNat]
    by_cases hc : r.contains n
    · rw [if_pos hc]; exact ih
    · rw [if_neg hc]
      refine List.nodup_cons.mpr ⟨fun hmem => ?_, ih⟩
      exact hc (List.contains_eq_any_beq r n ▸ by
        simpa using List.elem_eq_true_of_mem (mem_dedupNat r n hmem))

/-- C9: the issue-reference extractor recognizes closes, fixes and
    resolves followed by hash-number, case-insensitively, removes
    duplicates (the result never contains a repeated number), and yields
    nothing for bodies without such a keyword or for the empty body. -/
theorem C9_issue_references :
    extract_issue_references "Closes #123" = [123] ∧
    extract_issue_references "Fixes #123 and fixes #123" = [123] ∧
    extract_issue_references "cLoSeS #7" = [7] ∧
    extract_issue_references "resolves #9" = [9] ∧
    extract_issue_references "Related to #5" = [] ∧
    extract_issue_references "This PR improves performance" = [] ∧
    extract_issue_references "" = [] ∧
    (∀ body : String, (extract_issue_references body).Nodup) := by
  refine ⟨by decide, by decide, by decide, by decide, by decide, by decide,
    by decide, ?_⟩
  intro body
  unfold extract_issue_references
  by_cases h : body == ""
  · rw [if_pos h]; simp
  · rw [if_neg h]; exact dedupNat_nodup _

/-! ## Orchestrator claims -/

/-- C7: when the repository identifier does not split into exactly owner
    and name, handle_review_results returns the error result immediately:
    no effect is performed and the attempt store is unchanged. -/
theorem C7_invalid_repo (review_result : WorkflowResult) (pr_number : Nat)
    (issue_numbers : List Int) (repo_full_name : String)
    (original_prompt : String) (config : Config) (attempts : AttemptStore)
    (merge_ok : Bool) (new_adw_id : String)
    (reimpl_outcome : Except String (WorkflowResult × Option WorkflowResult))
    (hsplit : (splitSlash repo_full_name.data).length ≠ 2) :
    handle_review_results review_result pr_number issue_numbers
      repo_full_name original_prompt config attempts merge_ok new_adw_id
      reimpl_outcome =
    ({ action := "error",
       success := false,
       error := some "Invalid repository name format",
       approval_status := none, summary := none, recommendations := none,
       issues := none, merge_attempted := none, attempt_count := none,
       reimplementation_attempted := none, new_adw_id := none,
       chore_result := none, impl_result := none },
     attempts, []) := by
  rcases hs : splitSlash repo_full_name.data with _ | ⟨a, _ | ⟨b, _ | ⟨c, r⟩⟩⟩
  · simp [handle_review_results, hs]
  · simp [handle_review_results, hs]
  · exact absurd (by simp [hs]) hsplit
  · simp [handle_review_results, hs]

/-- Witness for C7 at a slash-free repository name. -/
theorem C7_invalid_repo_witness :
    (handle_review_results ⟨true, "APPROVED", "a1"⟩ 7 [3] "noslash" "p"
        ⟨true, true, "squash", 3⟩ [] true "a2" (Except.error "e")).1.action =
      "error" := by
  rw [C7_invalid_repo ⟨true, "APPROVED", "a1"⟩ 7 [3] "noslash" "p"
    ⟨true, true, "squash", 3⟩ [] true "a2" (Except.error "e") (by decide)]

/-- C1: with a parsed CHANGES_REQUESTED verdict, auto-reimplement enabled,
    and the primary issue already at or above the maximum attempt count,
    the orchestrator reports max_attempts_reached with success false and
    the unchanged count, leaves the attempt store untouched, and performs
    only max-attempts comments: no re-implementation effect. -/
theorem C1_max_attempts_reached (review_result : WorkflowResult)
    (pr_number : Nat) (issue_numbers : List Int) (repo_full_name : String)
    (original_prompt : String) (config : Config) (attempts : AttemptStore)
    (merge_ok : Bool) (new_adw_id : String)
    (reimpl_outcome : Except String (WorkflowResult × Option WorkflowResult))
    (sum : String) (recs : List String)
    (hsplit : (splitSlash repo_full_name.data).length = 2)
    (hparse : parse_review_status review_result.output =
      ("CHANGES_REQUESTED", sum, recs))
    (hauto : config.auto_reimplement_on_changes = true)
    (hmax : config.max_reimplement_attempts ≤
      getAttempts attempts (issue_numbers.headD 0)) :
    (handle_review_results review_result pr_number issue_numbers
      repo_full_name original_prompt config attempts merge_ok new_adw_id
      reimpl_outcome).1.action = "max_attempts_reached" ∧
    (handle_review_results review_result pr_number issue_numbers
      repo_full_name original_prompt config attempts merge_ok new_adw_id
      reimpl_outcome).1.success = false ∧
    (handle_review_results review_result pr_number issue_numbers
      repo_full_name original_prompt config attempts merge_ok new_adw_id
      reimpl_outcome).1.attempt_count =
      some (getAttempts attempts (issue_numbers.headD 0)) ∧
    (handle_review_results review_result pr_number issue_numbers
      repo_full_name original_prompt config attempts merge_ok new_adw_id
      reimpl_outcome).2.1 = attempts ∧
    (handle_review_results review_result pr_number issue_numbers
      repo_full_name original_prompt config attempts merge_ok new_adw_id
      reimpl_outcome).2.2 =
      issue_numbers.map (fun i => Effect.postMaxAttemptsComment i) ∧
    (∀ e ∈ (handle_review_results review_result pr_number issue_numbers
      repo_full_name original_prompt config attempts merge_ok new_adw_id
      reimpl_outcome).2.2,
      ∀ i a p, ¬ e = Effect.triggerReimplementation i a p) := by
  rcases hs : splitSlash repo_full_name.data with _ | ⟨a, _ | ⟨b, _ | ⟨c, r⟩⟩⟩
  · simp [hs] at hsplit
  · simp [hs] at hsplit
  · have hb1 : (("CHANGES_REQUESTED" == "APPROVED") : Bool) = false := by
      decide
    have hb2 : (("CHANGES_REQUESTED" == "CHANGES_REQUESTED") : Bool) =
        true := by decide
    have hlt : ¬ (getAttempts attempts (issue_numbers.headD 0) <
        config.max_reimplement_attempts) := Nat.not_lt.mpr hmax
    have hlt2 : ¬ (getAttempts attempts (issue_numbers.head?.getD 0) <
        config.max_reimplement_attempts) := by simpa using hlt
    have hres : handle_review_results review_result pr_number issue_numbers
        repo_full_name original_prompt config attempts merge_ok new_adw_id
        reimpl_outcome =
        ({ action := "max_attempts_reached",
           success := false,
           error := none,
           approval_status := some "CHANGES_REQUESTED",
           summary := some sum,
           recommendations := some recs,
           issues := some (extract_review_issues review_result.output),
           merge_attempted := none,
           attempt_count :=
             some (getAttempts attempts (issue_numbers.headD 0)),
           reimplementation_attempted := none, new_adw_id := none,
           chore_result := none, impl_result := none },
         attempts,
         issue_numbers.map (fun i => Effect.postMaxAttemptsComment i)) := by
      simp only [handle_review_results, hs, List.map, hparse,
        check_reimplement_attempts]
      simp [hb1, hb2, hauto, hlt2, decide_eq_false hlt2]
    refine ⟨by rw [hres], by rw [hres], by rw [hres], by rw [hres],
      by rw [hres], ?_⟩
    rw [hres]
    intro e he i0 a0 p0
    simp only [List.mem_map] at he
    obtain ⟨i1, _, he2⟩ := he
    rw [← he2]
    simp
  · simp [hs] at hsplit

/-- Witness for C1 with one linked issue already at the maximum. -/
theorem C1_max_attempts_reached_witness :
    (handle_review_results ⟨true, "CHANGES_REQUESTED", "a1"⟩ 42 [5] "o/r"
      "p" ⟨true, true, "squash", 3⟩ [(5, 3)] true "a2"
      (Except.error "boom")).1.action = "max_attempts_reached" :=
  (C1_max_attempts_reached ⟨true, "CHANGES_REQUESTED", "a1"⟩ 42 [5] "o/r"
    "p" ⟨true, true, "squash", 3⟩ [(5, 3)] true "a2" (Except.error "boom")
    "" [] (by decide) (by decide) (by decide) (by decide)).1

/-- C10: with no linked issues, a CHANGES_REQUESTED verdict and
    auto-reimplement enabled, the attempt counter consulted and, when
    allowed, incremented is the one under the sentinel key 0; all other
    keys are untouched, and when key 0 is already at the maximum the call
    is blocked on that shared counter. -/
theorem C10_sentinel_key_zero (review_result : WorkflowResult)
    (pr_number : Nat) (repo_full_name : String)
    (original_prompt : String) (config : Config) (attempts : AttemptStore)
    (merge_ok : Bool) (new_adw_id : String)
    (reimpl_outcome : Except String (WorkflowResult × Option WorkflowResult))
    (sum : String) (recs : List String)
    (hsplit : (splitSlash repo_full_name.data).length = 2)
    (hparse : parse_review_status review_result.output =
      ("CHANGES_REQUESTED", sum, recs))
    (hauto : config.auto_reimplement_on_changes = true) :
    (getAttempts attempts 0 < config.max_reimplement_attempts →
      (handle_review_results review_result pr_number [] repo_full_name
        original_prompt config attempts merge_ok new_adw_id
        reimpl_outcome).2.1 =
        setAttempts attempts 0 (getAttempts attempts 0 + 1) ∧
      lookupAttempts (handle_review_results review_result pr_number []
        repo_full_name original_prompt config attempts merge_ok new_adw_id
        reimpl_outcome).2.1 0 = some (getAttempts attempts 0 + 1) ∧
      (∀ j : Int, ¬ j = 0 →
        lookupAttempts (handle_review_results review_result pr_number []
          repo_full_name original_prompt config attempts merge_ok new_adw_id
          reimpl_outcome).2.1 j = lookupAttempts attempts j) ∧
      (handle_review_results review_result pr_number [] repo_full_name
        original_prompt config attempts merge_ok new_adw_id
        reimpl_outcome).1.attempt_count =
        some (getAttempts attempts 0 + 1)) ∧
    (config.max_reimplement_attempts ≤ getAttempts attempts 0 →
      (handle_review_results review_result pr_number [] repo_full_name
        original_prompt config attempts merge_ok new_adw_id
        reimpl_outcome).1.action = "max_attempts_reached" ∧
      (handle_review_results review_result pr_number [] repo_full_name
        original_prompt config attempts merge_ok new_adw_id
        reimpl_outcome).1.attempt_count = some (getAttempts attempts 0) ∧
      (handle_review_results review_result pr_number [] repo_full_name
        original_prompt config attempts merge_ok new_adw_id
        reimpl_outcome).2.1 = attempts) := by
  rcases hs : splitSlash repo_full_name.data with _ | ⟨a, _ | ⟨b, _ | ⟨c, r⟩⟩⟩
  · simp [hs] at hsplit
  · simp [hs] at hsplit
  · have hb1 : (("CHANGES_REQUESTED" == "APPROVED") : Bool) = false := by
      decide
    have hb2 : (("CHANGES_REQUESTED" == "CHANGES_REQUESTED") : Bool) =
        true := by decide
    constructor
    · intro hallow
      have hst : (handle_review_results review_result pr_number []
          repo_full_name original_prompt config attempts merge_ok new_adw_id
          reimpl_outcome).2.1 =
          setAttempts attempts 0 (getAttempts attempts 0 + 1) ∧
          (handle_review_results review_result pr_number [] repo_full_name
            original_prompt config attempts merge_ok new_adw_id
            reimpl_outcome).1.attempt_count =
            some (getAttempts attempts 0 + 1) := by
        rcases reimpl_outcome with e | ⟨cr, ir⟩ <;>
        · constructor <;>
          · simp only [handle_review_results, hs, List.map, hparse,
              check_reimplement_attempts, increment_reimplement_attempts]
            simp [hb1, hb2, hauto, hallow, List.headD]
      refine ⟨hst.1, ?_, ?_, hst.2⟩
      · rw [hst.1]; exact lookup_setAttempts_self _ _ _
      · intro j hj
        rw [hst.1]; exact lookup_setAttempts_other _ _ _ _ hj
    · intro hmax
      have hlt : ¬ (getAttempts attempts 0 <
          config.max_reimplement_attempts) := Nat.not_lt.mpr hmax
      refine ⟨?_, ?_, ?_⟩ <;>
      · simp only [handle_review_results, hs, List.map, hparse,
          check_reimplement_attempts]
        simp [hb1, hb2, hauto, hlt, decide_eq_false hlt, List.headD]
  · simp [hs] at hsplit

/-- Witness for C10 at an empty issue list with a nonempty store for
    another key. -/
theorem C10_sentinel_key_zero_witness :
    (handle_review_results ⟨true, "CHANGES_REQUESTED", "a1"⟩ 42 [] "o/r"
      "p" ⟨true, true, "squash", 3⟩ [(7, 2)] true "a2"
      (Except.ok (⟨true, "done", "a2"⟩, none))).2.1 =
      setAttempts [(7, 2)] 0 (getAttempts [(7, 2)] 0 + 1) :=
  ((C10_sentinel_key_zero ⟨true, "CHANGES_REQUESTED", "a1"⟩ 42 "o/r" "p"
    ⟨true, true, "squash", 3⟩ [(7, 2)] true "a2"
    (Except.ok (⟨true, "done", "a2"⟩, none)) "" [] (by decide) (by decide)
    (by decide)).1 (by decide)).1

/-! ## Search and containment lemmas for the parser claims -/

theorem containsSub_cons_false (sub : List Char) (c : Char) (r : List Char)
    (h : containsSub sub (c :: r) = false) :
    leadsWith sub (c :: r) = false ∧ containsSub sub r = false := by
  simpa [containsSub, Bool.or_eq_false_iff] using h

theorem searchFirst_none_of_nohash {α : Type} (f : List Char → Option α)
    (hnil : f [] = none) (hone : ∀ c, f [c] = none)
    (hgate : ∀ c d r, ¬ (c = '#' ∧ d = '#') → f (c :: d :: r) = none)
    (s : List Char) (h : containsSub ['#', '#'] s = false) :
    searchFirst f s = none := by
  induction s with
  | nil => simpa [searchFirst] using hnil
  | cons c r ih =>
    have hparts := containsSub_cons_false _ _ _ h
    have hf : f (c :: r) = none := by
      cases r with
      | nil => exact hone c
      | cons d r2 =>
        refine hgate c d r2 ?_
        rintro ⟨hc, hd⟩
        subst hc; subst hd
        have := hparts.1
        simp [leadsWith] at this
    simp only [searchFirst, hf]
    exact ih hparts.2

theorem matchApprovalAt_gate (c d : Char) (r : List Char)
    (h : ¬ (c = '#' ∧ d = '#')) : matchApprovalAt (c :: d :: r) = none := by
  simp [matchApprovalAt, h]

theorem matchSectionAt_gate (name : List Char) (c d : Char) (r : List Char)
    (h : ¬ (c = '#' ∧ d = '#')) :
    matchSectionAt name (c :: d :: r) = none := by
  simp [matchSectionAt, h]

theorem matchIssuesFoundAt_gate (c d : Char) (r : List Char)
    (h : ¬ (c = '#' ∧ d = '#')) :
    matchIssuesFoundAt (c :: d :: r) = none := by
  simp [matchIssuesFoundAt, h]

/-- C5: on input that matches nothing, both parsers silently return their
    defaults: needs-discussion with empty summary and recommendations, and
    the all-empty issue map; totality of the embedded functions is the
    never-raises guarantee. The hypotheses say no two consecutive hashes
    and none of the fallback status literals occur in the input. -/
theorem C5_malformed_defaults (s : String)
    (hhash : containsSub ['#', '#'] s.data = false)
    (hap : containsSub ("APPROVED".data) s.data = false)
    (hcr1 : containsSub ("CHANGES REQUESTED".data) s.data = false)
    (hcr2 : containsSub ("CHANGES_REQUESTED".data) s.data = false) :
    parse_review_status s = ("NEEDS_DISCUSSION", "", []) ∧
    extract_review_issues s = ⟨[], [], []⟩ := by
  have ha : searchFirst matchApprovalAt s.data = none :=
    searchFirst_none_of_nohash _ rfl (fun c => rfl) matchApprovalAt_gate _
      hhash
  have hsum : searchFirst (matchSectionAt ("summary".data)) s.data = none :=
    searchFirst_none_of_nohash _ rfl (fun c => rfl)
      (matchSectionAt_gate ("summary".data)) _ hhash
  have hrec : searchFirst (matchSectionAt ("recommendations".data)) s.data =
      none :=
    searchFirst_none_of_nohash _ rfl (fun c => rfl)
      (matchSectionAt_gate ("recommendations".data)) _ hhash
  have hiss : searchFirst matchIssuesFoundAt s.data = none :=
    searchFirst_none_of_nohash _ rfl (fun c => rfl) matchIssuesFoundAt_gate _
      hhash
  constructor
  · simp only [parse_review_status, ha, hsum, hrec]
    simp [hap, hcr1, hcr2]
  · simp only [extract_review_issues, hiss]

/-- Witness for C5 at a status-free plain-text input. -/
theorem C5_malformed_defaults_witness :
    parse_review_status "This is not a proper review format" =
      ("NEEDS_DISCUSSION", "", []) :=
  (C5_malformed_defaults "This is not a proper review format" (by decide)
    (by decide) (by decide) (by decide)).1

/-! ## Summary boundary: lemmas and claim C6 -/

theorem leadsWith_append (p t u : List Char) (h : leadsWith p t = true) :
    leadsWith p (t ++ u) = true := by
  induction p generalizing t with
  | nil => simp [leadsWith]
  | cons a ps ih =>
    cases t with
    | nil => simp [leadsWith] at h
    | cons c ts =>
      simp only [leadsWith, Bool.and_eq_true] at h ⊢
      exact ⟨h.1, ih ts h.2⟩

theorem leadsWith_of_prefix (p t r : List Char) (hpre : t <+: r)
    (h : leadsWith p t = true) : leadsWith p r = true := by
  obtain ⟨u, hu⟩ := hpre
  rw [← hu]
  exact leadsWith_append p t u h

theorem takeUntilB_prefix (b : List Char → Bool) (l : List Char) :
    takeUntilB b l <+: l := by
  induction l with
  | nil => simp [takeUntilB]
  | cons c r ih =>
    simp only [takeUntilB]
    by_cases hb : b (c :: r) = true
    · rw [if_pos hb]; exact List.nil_prefix
    · rw [if_neg hb]
      exact List.cons_prefix_cons.mpr ⟨rfl, ih⟩

theorem contains_nlHH_takeUntil (l : List Char) :
    containsSub ['\n', '#', '#'] (takeUntilB isSectionBoundary l) = false := by
  induction l with
  | nil => rfl
  | cons c r ih =>
    simp only [takeUntilB]
    by_cases hb : isSectionBoundary (c :: r) = true
    · rw [if_pos hb]; rfl
    · rw [if_neg hb]
      have hlead : leadsWith ['\n', '#', '#']
          (c :: takeUntilB isSectionBoundary r) = false := by
        cases hl : leadsWith ['\n', '#', '#']
            (c :: takeUntilB isSectionBoundary r) with
        | false => rfl
        | true =>
          exfalso
          apply hb
          have hpre : (c :: takeUntilB isSectionBoundary r) <+: (c :: r) :=
            List.cons_prefix_cons.mpr ⟨rfl, takeUntilB_prefix _ _⟩
          exact leadsWith_of_prefix _ _ _ hpre hl
      simp [containsSub, hlead, ih]

theorem containsSub_nil_sub (l : List Char) : containsSub [] l = true := by
  cases l <;> simp [containsSub, leadsWith, List.isEmpty]

theorem containsSub_append_right (sub m v : List Char)
    (h : containsSub sub m = true) : containsSub sub (m ++ v) = true := by
  induction m with
  | nil =>
    simp [containsSub, List.isEmpty_iff] at h
    subst h
    exact containsSub_nil_sub v
  | cons c m2 ih =>
    simp only [containsSub, Bool.or_eq_true] at h
    rcases h with h1 | h1
    · simp only [List.cons_append, containsSub, Bool.or_eq_true]
      exact Or.inl (leadsWith_append _ _ _ h1)
    · simp only [List.cons_append, containsSub, Bool.or_eq_true]
      exact Or.inr (ih h1)

theorem containsSub_append_left (sub u m : List Char)
    (h : containsSub sub m = true) : containsSub sub (u ++ m) = true := by
  induction u with
  | nil => simpa using h
  | cons c u2 ih =>
    simp only [List.cons_append, containsSub, Bool.or_eq_true]
    exact Or.inr ih

theorem strip_decomp (l : List Char) :
    l = (l.takeWhile (fun c => isSpaceChar c)) ++ (stripChars l ++
      ((l.dropWhile (fun c => isSpaceChar c)).reverse.takeWhile
        (fun c => isSpaceChar c)).reverse) := by
  conv_lhs => rw [← @List.takeWhile_append_dropWhile _
    (fun c => isSpaceChar c) l]
  congr 1
  conv_lhs => rw [← List.reverse_reverse
    (l.dropWhile (fun c => isSpaceChar c)),
    ← @List.takeWhile_append_dropWhile _ (fun c => isSpaceChar c)
      (l.dropWhile (fun c => isSpaceChar c)).reverse]
  rw [List.reverse_append]
  rfl

theorem containsSub_strip_false (sub l : List Char)
    (h : containsSub sub l = false) :
    containsSub sub (stripChars l) = false := by
  cases hs : containsSub sub (stripChars l) with
  | false => rfl
  | true =>
    exfalso
    have h2 : containsSub sub l = true := by
      conv_lhs => rw [strip_decomp l]
      exact containsSub_append_left _ _ _ (containsSub_append_right _ _ _ hs)
    rw [h] at h2
    cases h2

theorem searchFirst_some {α : Type} (f : List Char → Option α)
    (s : List Char) (v : α) (h : searchFirst f s = some v) :
    ∃ t : List Char, f t = some v := by
  induction s with
  | nil => exact ⟨[], by simpa [searchFirst] using h⟩
  | cons c r ih =>
    simp only [searchFirst] at h
    split at h
    next w hf => exact ⟨c :: r, hf.trans h⟩
    next hf => exact ih h

theorem matchSectionAt_shape (name s cap : List Char)
    (h : matchSectionAt name s = some cap) :
    ∃ X : List Char, cap = takeUntilB isSectionBoundary X := by
  unfold matchSectionAt at h
  split at h
  · split at h
    · split at h
      split at h
      · simp at h
      · split at h
        split at h
        · exact ⟨_, (Option.some.inj h).symm⟩
        · simp at h
    · simp at h
  · simp at h

/-- C6 counterexample: in this review the Summary section contains a
    three-hash sub-heading before the next two-hash heading; the claim says
    the summary includes the sub-heading and its content, but the code
    stops the capture there and returns only the text before it. -/
theorem C6_counterexample :
    (parse_review_status
      "## Summary\nIntro\n### Details\nMore\n## Next").2.1 = "Intro" ∧
    ¬ (parse_review_status
      "## Summary\nIntro\n### Details\nMore\n## Next").2.1 =
      "Intro\n### Details\nMore" := by
  constructor
  · decide
  · decide

/-- C6 amended: the extracted summary never reaches past any newline
    followed by two hashes, so a three-hash sub-heading line inside the
    summary region ends the capture rather than being included (the
    summary pattern, unlike the Issues Found pattern, has no negative
    lookahead). -/
theorem C6_summary_stops_at_hashes (s : String) :
    containsSub ['\n', '#', '#'] (parse_review_status s).2.1.data = false := by
  simp only [parse_review_status]
  rcases hm : searchFirst (matchSectionAt ("summary".data)) s.data
    with _ | cap
  · simp only [hm]
    decide
  · simp only [hm]
    obtain ⟨t, hf⟩ := searchFirst_some _ _ _ hm
    obtain ⟨X, hX⟩ := matchSectionAt_shape _ _ _ hf
    subst hX
    exact containsSub_strip_false _ _ (contains_nlHH_takeUntil X)

/-! ## Severity None handling: claim C8 -/

/-- Selector for one of the three severity levels the source iterates
    over. -/
inductive SevName where
  | criticalS
  | moderateS
  | minorS
deriving DecidableEq

/-- The lowercase severity word the source interpolates into the
    sub-section pattern. -/
def sevWord : SevName → List Char
  | SevName.criticalS => "critical".data
  | SevName.moderateS => "moderate".data
  | SevName.minorS => "minor".data

/-- The field of the extraction result belonging to a severity level. -/
def issuesFor (r : ReviewIssues) : SevName → List String
  | SevName.criticalS => r.critical
  | SevName.moderateS => r.moderate
  | SevName.minorS => r.minor

/-- C8: for every review text whose Issues Found section matches, and
    every one of the three severity levels whose sub-section matches with
    a captured body that strips to the word None in any letter case, the
    extraction returns the empty list for that severity, never a one-item
    list. -/
theorem C8_none_section_empty (review_output : String)
    (issuesText cap : List Char) (sev : SevName)
    (hiss : searchFirst matchIssuesFoundAt review_output.data =
      some issuesText)
    (hsev : searchFirst (matchSeverityAt (sevWord sev)) issuesText =
      some cap)
    (hnone : toLowerList (stripChars cap) = "none".data) :
    issuesFor (extract_review_issues review_output) sev = [] := by
  have hfield : extractSeverity issuesText (sevWord sev) = [] := by
    simp [extractSeverity, hsev, hnone]
  cases sev <;>
    simp only [extract_review_issues, hiss, issuesFor] <;>
    exact hfield

/-- The universal None theorem evaluated at a concrete review whose Minor
    sub-section is a cased None with surrounding whitespace, alongside a
    sibling Moderate bullet. -/
theorem C8_none_section_empty_witness :
    searchFirst matchIssuesFoundAt
        ("## Issues Found\n### Minor\n  nONe \n### Moderate\n- broken test\n".data) =
      some ("### Minor\n  nONe \n### Moderate\n- broken test\n".data) ∧
    searchFirst (matchSeverityAt (sevWord SevName.minorS))
        ("### Minor\n  nONe \n### Moderate\n- broken test\n".data) =
      some ("  nONe ".data) ∧
    toLowerList (stripChars ("  nONe ".data)) = "none".data ∧
    issuesFor (extract_review_issues
        "## Issues Found\n### Minor\n  nONe \n### Moderate\n- broken test\n")
      SevName.minorS = [] :=
  ⟨by decide, by decide, by decide,
    C8_none_section_empty
      "## Issues Found\n### Minor\n  nONe \n### Moderate\n- broken test\n"
      ("### Minor\n  nONe \n### Moderate\n- broken test\n".data)
      ("  nONe ".data) SevName.minorS (by decide) (by decide) (by decide)⟩

/-! ## Structured approval headers: claim C4

The structured pattern recognizes the three status tokens written with
internal whitespace; a token written with an underscore is not matched by
the pattern and falls back to a case-sensitive substring scan of the whole
text, which scans for APPROVED first. The claim as stated is therefore
false for underscore tokens when a competing literal occurs elsewhere;
the amended claim proves the structured space-form case in full
generality. -/

/-- Every character of the run is whitespace. -/
def allWS (w : List Char) : Prop := ∀ c ∈ w, isSpaceChar c = true

/-- The word is a letter-case variant of the (lowercase) pattern. -/
def lowersTo (x p : List Char) : Prop := x.map Char.toLower = p

/-- Which of the three status tokens the header carries. -/
inductive TokenKind where
  | approvedK
  | changesK
  | needsK
deriving DecidableEq

/-- The token text: one cased word, or two cased words separated by a
    whitespace run. -/
def tokenText : TokenKind → List Char → List Char → List Char → List Char
  | TokenKind.approvedK, x, _, _ => x
  | TokenKind.changesK, x, w, y => x ++ w ++ y
  | TokenKind.needsK, x, w, y => x ++ w ++ y

/-- The spelling constraints for each token kind. -/
def tokenSpelled : TokenKind → List Char → List Char → List Char → Prop
  | TokenKind.approvedK, x, w, y =>
    lowersTo x ("approved".data) ∧ w = [] ∧ y = []
  | TokenKind.changesK, x, w, y =>
    lowersTo x ("changes".data) ∧ allWS w ∧ lowersTo y ("requested".data)
  | TokenKind.needsK, x, w, y =>
    lowersTo x ("needs".data) ∧ allWS w ∧ lowersTo y ("discussion".data)

/-- The normalized status each token kind must yield. -/
def tokenStatus : TokenKind → String
  | TokenKind.approvedK => "APPROVED"
  | TokenKind.changesK => "CHANGES_REQUESTED"
  | TokenKind.needsK => "NEEDS_DISCUSSION"

/-- A structured approval-status header: hashes, the cased words Approval
    and Status separated by whitespace runs, a whitespace run containing a
    newline, an optional opening bracket, more whitespace, the token, and
    arbitrary trailing text. -/
def approvalHeaderText (w0 ap w1 st wn : List Char) (br : Bool)
    (w3 : List Char) (kind : TokenKind) (x w y tail : List Char) :
    List Char :=
  '#' :: '#' :: (w0 ++ ap ++ w1 ++ st ++ wn ++ (if br then ['['] else []) ++
    w3 ++ tokenText kind x w y ++ tail)

/-! ### Character-case lemmas -/

theorem toNat_ofNat_valid (n : Nat) (h : n.isValidChar) :
    (Char.ofNat n).toNat = n := by
  rw [Char.ofNat, dif_pos h]
  rfl

theorem toUpper_toLower (c : Char) :
    Char.toUpper (Char.toLower c) = Char.toUpper c := by
  unfold Char.toLower
  by_cases h : c.toNat ≥ 65 ∧ c.toNat ≤ 90
  · rw [if_pos h]
    have hv : (c.toNat + 32).isValidChar := Or.inl (by omega)
    have ht : (Char.ofNat (c.toNat + 32)).toNat = c.toNat + 32 :=
      toNat_ofNat_valid _ hv
    unfold Char.toUpper
    rw [ht, if_pos (by omega)]
    have h32 : c.toNat + 32 - 32 = c.toNat := by omega
    rw [h32, Char.ofNat_toNat, if_neg (by omega)]
  · rw [if_neg h]

theorem isSpaceChar_cases (c : Char) (h : isSpaceChar c = true) :
    c = ' ' ∨ c = '\t' ∨ c = '\n' ∨ c = '\r' ∨ c = '\x0b' ∨ c = '\x0c' := by
  simpa [isSpaceChar, or_assoc] using h

theorem isSpaceChar_toLower (c : Char) (h : isSpaceChar c = true) :
    Char.toLower c = c := by
  rcases isSpaceChar_cases c h with h | h | h | h | h | h <;> subst h <;>
    decide

theorem isSpaceChar_toUpper (c : Char) (h : isSpaceChar c = true) :
    Char.toUpper c = c := by
  rcases isSpaceChar_cases c h with h | h | h | h | h | h <;> subst h <;>
    decide

theorem not_space_of_lower (c l : Char) (hl : Char.toLower c = l)
    (hns : isSpaceChar l = false) : isSpaceChar c = false := by
  cases hsp : isSpaceChar c with
  | false => rfl
  | true =>
    rw [isSpaceChar_toLower c hsp] at hl
    subst hl
    rw [hsp] at hns
    cases hns

theorem ne_bracket_of_lower (c l : Char) (hl : Char.toLower c = l)
    (hnb : ¬ l = '[') : ¬ c = '[' := by
  intro hc
  subst hc
  have h2 : ('[' : Char) = l :=
    (by decide : Char.toLower '[' = '[').symm.trans hl
  exact hnb h2.symm

theorem map_toUpper_of_lowersTo (x p : List Char) (h : lowersTo x p) :
    toUpperList x = toUpperList p := by
  unfold lowersTo at h
  unfold toUpperList
  rw [← h, List.map_map]
  refine List.map_congr_left ?_
  intro c _
  exact (toUpper_toLower c).symm

theorem lowersTo_cons_inv (x : List Char) (p : Char) (ps : List Char)
    (h : lowersTo x (p :: ps)) :
    ∃ c cs, x = c :: cs ∧ Char.toLower c = p ∧ lowersTo cs ps := by
  cases x with
  | nil => simp [lowersTo] at h
  | cons c cs =>
    simp only [lowersTo, List.map] at h
    exact ⟨c, cs, rfl, (List.cons.injEq _ _ _ _ ▸ h).1,
      (List.cons.injEq _ _ _ _ ▸ h).2⟩

/-! ### Whitespace-run and literal-match lemmas -/

theorem takeWhile_ws_append (w : List Char) (hw : allWS w) (a : Char)
    (ha : isSpaceChar a = false) (r : List Char) :
    (w ++ a :: r).takeWhile (fun c => isSpaceChar c) = w := by
  induction w with
  | nil => simp [List.takeWhile_cons, ha]
  | cons c ws ih =>
    have hc : isSpaceChar c = true := hw c (by simp)
    have hws : allWS ws := fun d hd => hw d (by simp [hd])
    simp [List.takeWhile_cons, hc, ih hws]

theorem dropWhile_ws_append (w : List Char) (hw : allWS w) (a : Char)
    (ha : isSpaceChar a = false) (r : List Char) :
    (w ++ a :: r).dropWhile (fun c => isSpaceChar c) = a :: r := by
  induction w with
  | nil => simp [List.dropWhile_cons, ha]
  | cons c ws ih =>
    have hc : isSpaceChar c = true := hw c (by simp)
    have hws : allWS ws := fun d hd => hw d (by simp [hd])
    simp [List.dropWhile_cons, hc, ih hws]

theorem spanSpaces_ws_append (w : List Char) (hw : allWS w) (a : Char)
    (ha : isSpaceChar a = false) (r : List Char) :
    spanSpaces (w ++ a :: r) = (w, a :: r) := by
  unfold spanSpaces
  rw [takeWhile_ws_append w hw a ha r, dropWhile_ws_append w hw a ha r]

theorem matchLitCI_map (x r : List Char) :
    matchLitCI (x.map Char.toLower) (x ++ r) = some r := by
  induction x with
  | nil => simp [matchLitCI]
  | cons c cs ih => simp [matchLitCI, ih]

theorem matchLitCI_lowers (x p r : List Char) (h : lowersTo x p) :
    matchLitCI p (x ++ r) = some r := by
  rw [← h]
  exact matchLitCI_map x r

theorem matchLitCapCI_map (x r : List Char) :
    matchLitCapCI (x.map Char.toLower) (x ++ r) = some (x, r) := by
  induction x with
  | nil => simp [matchLitCapCI]
  | cons c cs ih => simp [matchLitCapCI, ih]

theorem matchLitCapCI_lowers (x p r : List Char) (h : lowersTo x p) :
    matchLitCapCI p (x ++ r) = some (x, r) := by
  rw [← h]
  exact matchLitCapCI_map x r

theorem matchLitCapCI_ne_first (p : Char) (ps : List Char) (c : Char)
    (cs : List Char) (h : ¬ Char.toLower c = p) :
    matchLitCapCI (p :: ps) (c :: cs) = none := by
  simp [matchLitCapCI, h]

theorem searchFirst_of_match {α : Type} (f : List Char → Option α)
    (s : List Char) (v : α) (h : f s = some v) :
    searchFirst f s = some v := by
  cases s with
  | nil => simpa [searchFirst] using h
  | cons c r => simp only [searchFirst, h]

theorem searchFirst_cons_none {α : Type} (f : List Char → Option α)
    (c : Char) (r : List Char) (h : f (c :: r) = none) :
    searchFirst f (c :: r) = searchFirst f r := by
  simp only [searchFirst, h]

theorem searchFirst_append {α : Type} (f : List Char → Option α)
    (pre rest : List Char)
    (h : ∀ i < pre.length, f ((pre ++ rest).drop i) = none) :
    searchFirst f (pre ++ rest) = searchFirst f rest := by
  induction pre with
  | nil => simp
  | cons c p ih =>
    have h0 : f (c :: (p ++ rest)) = none := by
      simpa using h 0 (by simp)
    rw [List.cons_append, searchFirst_cons_none f _ _ h0]
    refine ih ?_
    intro i hi
    have := h (i + 1) (by simpa using Nat.succ_lt_succ hi)
    simpa using this

/-! ### Containment lemmas for the normalized token -/

theorem leadsWith_self_append (p r : List Char) :
    leadsWith p (p ++ r) = true := by
  induction p with
  | nil => simp [leadsWith]
  | cons c cs ih => simp [leadsWith, ih]

theorem containsSub_self_append (sub r : List Char) :
    containsSub sub (sub ++ r) = true := by
  cases sub with
  | nil => exact containsSub_nil_sub r
  | cons c cs =>
    simp only [List.cons_append, containsSub, Bool.or_eq_true]
    exact Or.inl (by simpa using leadsWith_self_append (c :: cs) r)

theorem mem_of_leadsWith (p t : List Char) (h : leadsWith p t = true) :
    ∀ c ∈ p, c ∈ t := by
  induction p generalizing t with
  | nil => simp
  | cons a ps ih =>
    cases t with
    | nil => simp [leadsWith] at h
    | cons b ts =>
      simp only [leadsWith, Bool.and_eq_true, beq_iff_eq] at h
      intro c hc
      rcases List.mem_cons.mp hc with h1 | h1
      · subst h1
        rw [h.1]
        simp
      · exact List.mem_cons_of_mem _ (ih ts h.2 c h1)

theorem mem_of_containsSub (sub s : List Char)
    (h : containsSub sub s = true) : ∀ c ∈ sub, c ∈ s := by
  induction s with
  | nil =>
    simp only [containsSub, List.isEmpty_iff] at h
    subst h
    simp
  | cons a r ih =>
    simp only [containsSub, Bool.or_eq_true] at h
    intro c hc
    rcases h with h1 | h1
    · exact mem_of_leadsWith _ _ h1 c hc
    · exact List.mem_cons_of_mem _ (ih h1 c hc)

theorem not_containsSub_of_missing (sub s : List Char) (c : Char)
    (hc : c ∈ sub) (hs : c ∉ s) : containsSub sub s = false := by
  cases h : containsSub sub s with
  | false => rfl
  | true => exact absurd (mem_of_containsSub sub s h c hc) hs

theorem ws_image_mem (w : List Char) (hw : allWS w) (c : Char)
    (hc : c ∈ replaceSpaceUnderscore (toUpperList w)) :
    c = '\t' ∨ c = '\n' ∨ c = '\r' ∨ c = '\x0b' ∨ c = '\x0c' ∨ c = '_' := by
  simp only [replaceSpaceUnderscore, toUpperList, List.map_map,
    List.mem_map, Function.comp] at hc
  obtain ⟨d, hd, hcd⟩ := hc
  rcases isSpaceChar_cases d (hw d hd) with h | h | h | h | h | h <;>
    subst h <;> subst hcd <;> decide

theorem spanSpaces_cons_nospace (a : Char) (ha : isSpaceChar a = false)
    (r : List Char) : spanSpaces (a :: r) = ([], a :: r) := by
  unfold spanSpaces
  simp [List.takeWhile_cons, List.dropWhile_cons, ha]

theorem matchLitCI_lowers_cons (c : Char) (cs p : List Char)
    (h : lowersTo (c :: cs) p) (r : List Char) :
    matchLitCI p (c :: (cs ++ r)) = some r := by
  rw [← List.cons_append]
  exact matchLitCI_lowers _ _ _ h

theorem matchLitCapCI_lowers_cons (c : Char) (cs p : List Char)
    (h : lowersTo (c :: cs) p) (r : List Char) :
    matchLitCapCI p (c :: (cs ++ r)) = some (c :: cs, r) := by
  rw [← List.cons_append]
  exact matchLitCapCI_lowers _ _ _ h

theorem matchLitCapCI_fail_head (p0 : Char) (ps p : List Char)
    (hp : p = p0 :: ps) (c : Char) (hne : ¬ Char.toLower c = p0)
    (cs : List Char) : matchLitCapCI p (c :: cs) = none := by
  subst hp
  exact matchLitCapCI_ne_first _ _ _ _ hne

/-- The token alternation accepts every spelled token, capturing exactly
    its text; the alternatives begin with distinct letters, so the earlier
    alternatives fail on the later tokens exactly as the engine tries them
    in order. -/
theorem matchStatusToken_spelled (kind : TokenKind) (x w y tail : List Char)
    (htok : tokenSpelled kind x w y) :
    matchStatusToken (tokenText kind x w y ++ tail) =
      some (tokenText kind x w y, tail) := by
  cases kind with
  | approvedK =>
    obtain ⟨hx, -, -⟩ := htok
    simp only [tokenText, matchStatusToken, matchLitCapCI_lowers x _ tail hx]
  | changesK =>
    obtain ⟨hx, hw2, hy⟩ := htok
    have hx2 := hx
    rw [(by decide : ("changes".data : List Char) = 'c' :: ("hanges".data))]
      at hx2
    obtain ⟨x0, xT, rfl, hx0, -⟩ := lowersTo_cons_inv x 'c' _ hx2
    have hy2 := hy
    rw [(by decide :
      ("requested".data : List Char) = 'r' :: ("equested".data))] at hy2
    obtain ⟨y0, yT, rfl, hy0, -⟩ := lowersTo_cons_inv y 'r' _ hy2
    have hy0ns : isSpaceChar y0 = false :=
      not_space_of_lower _ _ hy0 (by decide)
    simp only [tokenText, matchStatusToken, List.cons_append,
      List.append_assoc,
      matchLitCapCI_fail_head 'a' ("pproved".data) ("approved".data)
        (by decide) x0 (by simp [hx0]),
      matchLitCapCI_lowers_cons x0 xT _ hx,
      spanSpaces_ws_append w hw2 y0 hy0ns,
      matchLitCapCI_lowers_cons y0 yT _ hy]
  | needsK =>
    obtain ⟨hx, hw2, hy⟩ := htok
    have hx2 := hx
    rw [(by decide : ("needs".data : List Char) = 'n' :: ("eeds".data))]
      at hx2
    obtain ⟨x0, xT, rfl, hx0, -⟩ := lowersTo_cons_inv x 'n' _ hx2
    have hy2 := hy
    rw [(by decide :
      ("discussion".data : List Char) = 'd' :: ("iscussion".data))] at hy2
    obtain ⟨y0, yT, rfl, hy0, -⟩ := lowersTo_cons_inv y 'd' _ hy2
    have hy0ns : isSpaceChar y0 = false :=
      not_space_of_lower _ _ hy0 (by decide)
    simp only [tokenText, matchStatusToken, List.cons_append,
      List.append_assoc,
      matchLitCapCI_fail_head 'a' ("pproved".data) ("approved".data)
        (by decide) x0 (by simp [hx0]),
      matchLitCapCI_fail_head 'c' ("hanges".data) ("changes".data)
        (by decide) x0 (by simp [hx0]),
      matchLitCapCI_lowers_cons x0 xT _ hx,
      spanSpaces_ws_append w hw2 y0 hy0ns,
      matchLitCapCI_lowers_cons y0 yT _ hy]

/-- The first character of every spelled token is a letter: not
    whitespace and not an opening bracket. -/
theorem tokenText_head (kind : TokenKind) (x w y : List Char)
    (htok : tokenSpelled kind x w y) :
    ∃ t0 tT, tokenText kind x w y = t0 :: tT ∧ isSpaceChar t0 = false ∧
      ¬ t0 = '[' := by
  cases kind with
  | approvedK =>
    obtain ⟨hx, -, -⟩ := htok
    have hx2 := hx
    rw [(by decide : ("approved".data : List Char) = 'a' :: ("pproved".data))]
      at hx2
    obtain ⟨x0, xT, rfl, hx0, -⟩ := lowersTo_cons_inv x 'a' _ hx2
    exact ⟨x0, xT, rfl, not_space_of_lower _ _ hx0 (by decide),
      ne_bracket_of_lower _ _ hx0 (by decide)⟩
  | changesK =>
    obtain ⟨hx, -, -⟩ := htok
    have hx2 := hx
    rw [(by decide : ("changes".data : List Char) = 'c' :: ("hanges".data))]
      at hx2
    obtain ⟨x0, xT, rfl, hx0, -⟩ := lowersTo_cons_inv x 'c' _ hx2
    exact ⟨x0, xT ++ w ++ y, by simp [tokenText],
      not_space_of_lower _ _ hx0 (by decide),
      ne_bracket_of_lower _ _ hx0 (by decide)⟩
  | needsK =>
    obtain ⟨hx, -, -⟩ := htok
    have hx2 := hx
    rw [(by decide : ("needs".data : List Char) = 'n' :: ("eeds".data))]
      at hx2
    obtain ⟨x0, xT, rfl, hx0, -⟩ := lowersTo_cons_inv x 'n' _ hx2
    exact ⟨x0, xT ++ w ++ y, by simp [tokenText],
      not_space_of_lower _ _ hx0 (by decide),
      ne_bracket_of_lower _ _ hx0 (by decide)⟩

/-- The structured approval pattern matches at the start of every
    constructed header, capturing exactly the token text. -/
theorem matchApprovalAt_header (w0 w1 wn w3 : List Char) (hw0 : allWS w0)
    (hw1 : allWS w1) (hwn : allWS wn) (hw3 : allWS w3)
    (hnl : wn.contains '\n' = true) (ap st : List Char)
    (hap : lowersTo ap ("approval".data))
    (hst : lowersTo st ("status".data)) (br : Bool)
    (hbr : br = false → w3 = []) (kind : TokenKind)
    (x w y tail : List Char) (htok : tokenSpelled kind x w y) :
    matchApprovalAt
        (approvalHeaderText w0 ap w1 st wn br w3 kind x w y tail) =
      some (tokenText kind x w y) := by
  obtain ⟨t0, tT, hTokEq, ht0s, ht0b⟩ := tokenText_head kind x w y htok
  have hTokM : matchStatusToken (t0 :: (tT ++ tail)) =
      some (t0 :: tT, tail) := by
    have h1 := matchStatusToken_spelled kind x w y tail htok
    rw [hTokEq, List.cons_append] at h1
    exact h1
  have hap2 := hap
  rw [(by decide : ("approval".data : List Char) = 'a' :: ("pproval".data))]
    at hap2
  obtain ⟨a0, apT, hapEq, ha0, -⟩ := lowersTo_cons_inv ap 'a' _ hap2
  have ha0ns : isSpaceChar a0 = false :=
    not_space_of_lower _ _ ha0 (by decide)
  have hst2 := hst
  rw [(by decide : ("status".data : List Char) = 's' :: ("tatus".data))]
    at hst2
  obtain ⟨s0, stT, hstEq, hs0, -⟩ := lowersTo_cons_inv st 's' _ hst2
  have hs0ns : isSpaceChar s0 = false :=
    not_space_of_lower _ _ hs0 (by decide)
  subst hapEq
  subst hstEq
  cases br with
  | true =>
    simp only [approvalHeaderText, hTokEq, if_true, List.cons_append,
      List.append_assoc, List.nil_append, matchApprovalAt,
      eq_self_iff_true, and_self,
      spanSpaces_ws_append w0 hw0 a0 ha0ns,
      matchLitCI_lowers_cons a0 apT _ hap,
      spanSpaces_ws_append w1 hw1 s0 hs0ns,
      matchLitCI_lowers_cons s0 stT _ hst,
      spanSpaces_ws_append wn hwn '[' (by decide),
      hnl,
      spanSpaces_ws_append w3 hw3 t0 ht0s,
      hTokM]
  | false =>
    have hw3nil : w3 = [] := hbr rfl
    subst hw3nil
    have hBRf : (if (false : Bool) then (['['] : List Char) else []) = [] :=
      rfl
    simp only [approvalHeaderText, hTokEq, hBRf, List.cons_append,
      List.append_assoc, List.nil_append, List.append_nil,
      matchApprovalAt, eq_self_iff_true, and_self, if_true,
      spanSpaces_ws_append w0 hw0 a0 ha0ns,
      matchLitCI_lowers_cons a0 apT _ hap,
      spanSpaces_ws_append w1 hw1 s0 hs0ns,
      matchLitCI_lowers_cons s0 stT _ hst,
      spanSpaces_ws_append wn hwn t0 ht0s,
      hnl, ht0b, if_false,
      spanSpaces_cons_nospace t0 ht0s,
      hTokM]

instance (w : List Char) : Decidable (allWS w) :=
  inferInstanceAs (Decidable (∀ c ∈ w, isSpaceChar c = true))

instance (x p : List Char) : Decidable (lowersTo x p) :=
  inferInstanceAs (Decidable (x.map Char.toLower = p))

instance (k : TokenKind) (x w y : List Char) :
    Decidable (tokenSpelled k x w y) := by
  cases k <;> exact inferInstanceAs (Decidable (_ ∧ _ ∧ _))

theorem rsu_upper_append (a b : List Char) :
    replaceSpaceUnderscore (toUpperList (a ++ b)) =
      replaceSpaceUnderscore (toUpperList a) ++
        replaceSpaceUnderscore (toUpperList b) := by
  simp [toUpperList, replaceSpaceUnderscore]

/-- C4 counterexample: the text contains an Approval Status header followed
    by the underscore form of the changes-requested token (a form the claim
    covers), but the underscore form is not matched by the structured
    pattern; the case-sensitive fallback scan then finds the literal
    APPROVED elsewhere in the text first, so the parser returns APPROVED
    instead of CHANGES_REQUESTED. -/
theorem C4_counterexample :
    (parse_review_status
      "See APPROVED criteria.\n## Approval Status\nCHANGES_REQUESTED").1 =
      "APPROVED" ∧
    ¬ (parse_review_status
      "See APPROVED criteria.\n## Approval Status\nCHANGES_REQUESTED").1 =
      "CHANGES_REQUESTED" := by
  constructor
  · decide
  · decide

/-- C4 (amended): for every review text built from an arbitrary prefix in
    which the structured pattern matches nowhere, a case- and
    whitespace-varied Approval Status header, an optional opening bracket,
    and a space-form status token with arbitrary internal whitespace and
    arbitrary trailing text, the parser returns exactly the normalized
    status of that token. Underscore-form tokens are recognized only by
    the case-sensitive whole-text fallback scan and can be overridden by
    competing literals, as the counterexample shows. -/
theorem C4_structured_status (pre w0 ap w1 st wn : List Char) (br : Bool)
    (w3 : List Char) (kind : TokenKind) (x w y tail : List Char)
    (hw0 : allWS w0) (hap : lowersTo ap ("approval".data))
    (hw1 : allWS w1) (hst : lowersTo st ("status".data))
    (hwn : allWS wn) (hnl : wn.contains '\n' = true)
    (hw3 : allWS w3) (hbr : br = false → w3 = [])
    (htok : tokenSpelled kind x w y)
    (hpre : ∀ i < pre.length, matchApprovalAt
      ((pre ++
        approvalHeaderText w0 ap w1 st wn br w3 kind x w y tail).drop i) =
      none) :
    (parse_review_status (String.mk
      (pre ++ approvalHeaderText w0 ap w1 st wn br w3 kind x w y tail))).1 =
    tokenStatus kind := by
  have hmatch := matchApprovalAt_header w0 w1 wn w3 hw0 hw1 hwn hw3 hnl
    ap st hap hst br hbr kind x w y tail htok
  have hsearch2 : searchFirst matchApprovalAt
      ((String.mk (pre ++
        approvalHeaderText w0 ap w1 st wn br w3 kind x w y tail)).data) =
      some (tokenText kind x w y) := by
    show searchFirst matchApprovalAt
      (pre ++ approvalHeaderText w0 ap w1 st wn br w3 kind x w y tail) =
      some (tokenText kind x w y)
    rw [searchFirst_append matchApprovalAt pre _ hpre]
    exact searchFirst_of_match _ _ _ hmatch
  cases kind with
  | approvedK =>
    obtain ⟨hx, -, -⟩ := htok
    have hST : replaceSpaceUnderscore
        (toUpperList (tokenText TokenKind.approvedK x w y)) =
        "APPROVED".data := by
      simp only [tokenText]
      rw [map_toUpper_of_lowersTo x _ hx]
      decide
    have hcontains : containsSub ("APPROVED".data) ("APPROVED".data) =
        true := by decide
    simp only [parse_review_status, hsearch2, hST, hcontains, if_true]
    rfl
  | changesK =>
    obtain ⟨hx, hw2, hy⟩ := htok
    have hSTx : replaceSpaceUnderscore (toUpperList x) = "CHANGES".data := by
      rw [map_toUpper_of_lowersTo x _ hx]
      decide
    have hSTy : replaceSpaceUnderscore (toUpperList y) =
        "REQUESTED".data := by
      rw [map_toUpper_of_lowersTo y _ hy]
      decide
    have hST : replaceSpaceUnderscore
        (toUpperList (tokenText TokenKind.changesK x w y)) =
        "CHANGES".data ++
          (replaceSpaceUnderscore (toUpperList w) ++ "REQUESTED".data) := by
      simp only [tokenText, rsu_upper_append, hSTx, hSTy, List.append_assoc]
    have hVnot : ('V' : Char) ∉ "CHANGES".data ++
        (replaceSpaceUnderscore (toUpperList w) ++ "REQUESTED".data) := by
      intro hmem
      rcases List.mem_append.mp hmem with h1 | h1
      · exact absurd h1 (by decide)
      · rcases List.mem_append.mp h1 with h2 | h2
        · rcases ws_image_mem w hw2 'V' h2 with h | h | h | h | h | h <;>
            exact absurd h (by decide)
        · exact absurd h2 (by decide)
    have hnotA : containsSub ("APPROVED".data)
        ("CHANGES".data ++
          (replaceSpaceUnderscore (toUpperList w) ++ "REQUESTED".data)) =
        false :=
      not_containsSub_of_missing _ _ 'V' (by decide) hVnot
    have hcontainsC : containsSub ("CHANGES".data)
        ("CHANGES".data ++
          (replaceSpaceUnderscore (toUpperList w) ++ "REQUESTED".data)) =
        true := containsSub_self_append _ _
    simp only [parse_review_status, hsearch2, hST, hnotA, hcontainsC,
      if_true]
    rfl
  | needsK =>
    obtain ⟨hx, hw2, hy⟩ := htok
    have hSTx : replaceSpaceUnderscore (toUpperList x) = "NEEDS".data := by
      rw [map_toUpper_of_lowersTo x _ hx]
      decide
    have hSTy : replaceSpaceUnderscore (toUpperList y) =
        "DISCUSSION".data := by
      rw [map_toUpper_of_lowersTo y _ hy]
      decide
    have hST : replaceSpaceUnderscore
        (toUpperList (tokenText TokenKind.needsK x w y)) =
        "NEEDS".data ++
          (replaceSpaceUnderscore (toUpperList w) ++ "DISCUSSION".data) := by
      simp only [tokenText, rsu_upper_append, hSTx, hSTy, List.append_assoc]
    have hAnot : ('A' : Char) ∉ "NEEDS".data ++
        (replaceSpaceUnderscore (toUpperList w) ++ "DISCUSSION".data) := by
      intro hmem
      rcases List.mem_append.mp hmem with h1 | h1
      · exact absurd h1 (by decide)
      · rcases List.mem_append.mp h1 with h2 | h2
        · rcases ws_image_mem w hw2 'A' h2 with h | h | h | h | h | h <;>
            exact absurd h (by decide)
        · exact absurd h2 (by decide)
    have hnotA : containsSub ("APPROVED".data)
        ("NEEDS".data ++
          (replaceSpaceUnderscore (toUpperList w) ++ "DISCUSSION".data)) =
        false :=
      not_containsSub_of_missing _ _ 'A' (by decide) hAnot
    have hnotC : containsSub ("CHANGES".data)
        ("NEEDS".data ++
          (replaceSpaceUnderscore (toUpperList w) ++ "DISCUSSION".data)) =
        false :=
      not_containsSub_of_missing _ _ 'A' (by decide) hAnot
    simp only [parse_review_status, hsearch2, hST, hnotA, hnotC]
    rfl

/-- Witness for the amended C4: a bracketed, space-form changes-requested
    token after a prefix free of structured matches. -/
theorem C4_structured_status_witness :
    (parse_review_status (String.mk
      (("Review:\n".data) ++ approvalHeaderText [' '] ("Approval".data)
        [' '] ("Status".data) ['\n'] true [' '] TokenKind.changesK
        ("CHANGES".data) [' '] ("REQUESTED".data) (" ]\n".data)))).1 =
      "CHANGES_REQUESTED" :=
  C4_structured_status ("Review:\n".data) [' '] ("Approval".data) [' ']
    ("Status".data) ['\n'] true [' '] TokenKind.changesK ("CHANGES".data)
    [' '] ("REQUESTED".data) (" ]\n".data) (by decide) (by decide)
    (by decide) (by decide) (by decide) (by decide) (by decide) (by decide)
    (by decide) (by decide)

end ADW
